import Mathlib

/-!
Verification of the checkloc localization validator (checkloc/checkloc.py)
against its natural-language specification.

The Python source is shallowly embedded: pure string processing is
translated function by function; filesystem access (directory walks, file
reads, the lxml DTD grammar) is abstracted into explicit input data
(`LocFile`, `Env`), and the logging sink (`CheckLoc._log_message`) into an
explicit `Sink` state.  All loops are either structural folds or carry an
explicit fuel argument (with fuel chosen large enough, proved where needed),
so every definition evaluates by kernel reduction.

Character classes model Python's `re` module over ASCII text: `\s` is
`[ \t\n\r\f\v]`, `.properties` content is treated as ASCII.
-/

namespace Checkloc

/-- Form feed, `\f` in Python regexes. -/
def formFeed : Char := Char.ofNat 12

/-- Vertical tab, part of Python's `\s`. -/
def vTab : Char := Char.ofNat 11

/-- Python regex `\s` (ASCII range). -/
def isPyWs (c : Char) : Bool :=
  c = ' ' || c = '\t' || c = '\n' || c = '\r' || c = formFeed || c = vTab

/-- The character class `[\n\r\f]` used by PROP_COMMENT and PROP_SEP. -/
def isTerm (c : Char) : Bool :=
  c = '\n' || c = '\r' || c = formFeed

/-- The character class `[#!]` opening a .properties comment. -/
def isCommentStart (c : Char) : Bool :=
  c = '#' || c = '!'

/--
One attempted match of `PROP_COMMENT = ^\s*[#!]+[^\n\r\f]*[\n\r\f]+`
(MULTILINE) at a line start.  The regex is backtracking-free here: each
greedy piece is followed by a piece over a disjoint character class, so
maximal munch is exact.  Returns the text after the match together with
whether the last consumed character was a newline (which decides whether
the next position is again a `^` position for Python's MULTILINE `^`).
-/
def matchComment (l : List Char) : Option (List Char × Bool) :=
  match l.dropWhile isPyWs with
  | [] => none
  | c :: cs =>
    if isCommentStart c then
      match cs.dropWhile (fun ch => !(isTerm ch)) with
      | [] => none
      | t :: ts =>
        some (ts.dropWhile isTerm, decide ((ts.takeWhile isTerm).getLastD t = '\n'))
    else none

/--
The scanning loop of `re.sub(PROP_COMMENT, '', data)`: try a match at each
line-start position, skip matched text, copy other characters.  `atStart`
records whether the current position is the string start or just after a
newline (Python MULTILINE `^`).  Structural recursion on fuel; callers pass
fuel larger than the list length, which is always sufficient since every
step consumes at least one character.
-/
def commentScanF : Nat → Bool → List Char → List Char
  | 0, _, l => l
  | _ + 1, _, [] => []
  | fuel + 1, atStart, c :: cs =>
    if atStart then
      match matchComment (c :: cs) with
      | some (rest, nl) => commentScanF fuel nl rest
      | none => c :: commentScanF fuel (decide (c = '\n')) cs
    else c :: commentScanF fuel (decide (c = '\n')) cs

/-- `re.sub(PROP_COMMENT, '', data)` on a character list. -/
def removeComments (l : List Char) : List Char :=
  commentScanF (l.length + 1) true l

/-- `re.split(PROP_SEP, data)` with `PROP_SEP = [\n\r\f]`: split at every
single terminator character, keeping empty segments. -/
def splitSegs : List Char → List (List Char)
  | [] => [[]]
  | c :: cs =>
    if isTerm c then [] :: splitSegs cs
    else
      match splitSegs cs with
      | [] => [[c]]
      | s :: ss => (c :: s) :: ss

/-- The key character class of `PROP_LINE`
`[A-Za-z0-9_.\-+\\{}\[\]!@#$%^&*()/<>,?;'"`~|]`. -/
def isKeyChar (c : Char) : Bool :=
  c.isAlpha || c.isDigit ||
  c = '_' || c = '.' || c = '-' || c = '+' || c = '\\' ||
  c = Char.ofNat 123 || c = Char.ofNat 125 || c = '[' || c = ']' ||
  c = '!' || c = '@' || c = '#' || c = '$' || c = '%' || c = '^' ||
  c = '&' || c = '*' || c = '(' || c = ')' || c = '/' || c = '<' ||
  c = '>' || c = ',' || c = '?' || c = ';' || c = Char.ofNat 39 ||
  c = '"' || c = Char.ofNat 96 || c = '~' || c = '|'

/--
`PROP_LINE.match(line)`: `^\s*(KEY+)\s*[=:]\s*([^\n\r\f]*)`.
Again backtracking-free (each greedy class is disjoint from what follows;
the final group matches anything left).  Returns the two captured groups.
-/
def propLineMatch (l : List Char) : Option (List Char × List Char) :=
  let r1 := l.dropWhile isPyWs
  let key := r1.takeWhile isKeyChar
  if key.isEmpty then none
  else
    match (r1.dropWhile isKeyChar).dropWhile isPyWs with
    | c :: rest =>
      if c = '=' || c = ':' then
        some (key, (rest.dropWhile isPyWs).takeWhile (fun ch => !(isTerm ch)))
      else none
    | [] => none

/-- `int(...)` on the digit group of a placeholder. -/
def digitsToNat (ds : List Char) : Nat :=
  ds.foldl (fun acc c => acc * 10 + (c.toNat - '0'.toNat)) 0

/--
`re.match(r'%([0-9]+\$)?S', value[pos:])` where `value[pos] = '%'`.
`some none` is an anonymous `%S` match, `some (some ds)` a numbered
`%<ds>$S` match with digit group `ds`, `none` no match.
-/
def pmatchAt (v : List Char) (pos : Nat) : Option (Option (List Char)) :=
  let tail := v.drop (pos + 1)
  let ds := tail.takeWhile Char.isDigit
  if ds.isEmpty then
    if tail.head? = some 'S' then some none else none
  else
    match tail.drop ds.length with
    | '$' :: 'S' :: _ => some (some ds)
    | _ => none

/-- Result of one iteration of the placeholder `while` loop body. -/
inductive StepRes where
  | err
  | next (nsl : List Nat) (anon : Nat) (start : Nat)
deriving DecidableEq

/--
One iteration of the `while pos < len(value) and pos != -1` body in
`_parse_properties_file`: check `%%` escape first, then the placeholder
match, else a malformed-placeholder error.  On success returns the updated
numbered-substitution list, anonymous counter and the argument of the next
`value.find('%', ...)` call.
-/
def scanStep (v : List Char) (pos : Nat) (nsl : List Nat) (anon : Nat) : StepRes :=
  if v[pos + 1]? = some '%' then
    .next nsl anon (pos + 2)
  else
    match pmatchAt v pos with
    | some (some ds) => .next (nsl ++ [digitsToNat ds]) anon (pos + ds.length + 3)
    | some none => .next nsl (anon + 1) (pos + 2)
    | none => .err

/-- Result of the whole placeholder scan of one value. -/
inductive ScanResult where
  | ok (nsl : List Nat) (anon : Nat)
  | error (pos : Nat)
deriving DecidableEq

/-- `value.find('%', i)` helper: first `'%'` in `l` counting indices from `i`. -/
def findPctAux : List Char → Nat → Option Nat
  | [], _ => none
  | c :: cs, i => if c = '%' then some i else findPctAux cs (i + 1)

/-- `value.find('%', start)` (with `none` for Python's `-1`). -/
def findPct (v : List Char) (start : Nat) : Option Nat :=
  findPctAux (v.drop start) start

/--
The placeholder `while` loop.  `pos` is the index of the current `'%'`.
Fuel-recursive; each iteration advances `pos` by at least 2, so the fuel
`v.length + 1` used by `scanValue` never runs out.
-/
def scanLoopF : Nat → List Char → Nat → List Nat → Nat → ScanResult
  | 0, _, _, nsl, anon => .ok nsl anon
  | fuel + 1, v, pos, nsl, anon =>
    match scanStep v pos nsl anon with
    | .err => .error pos
    | .next nsl' anon' s =>
      match findPct v s with
      | none => .ok nsl' anon'
      | some p' => scanLoopF fuel v p' nsl' anon'

/-- The placeholder scan of one value (the `elif '%' in value:` branch body
up to the `if valid:` check). -/
def scanValue (v : List Char) : ScanResult :=
  match findPct v 0 with
  | none => .ok [] 0
  | some p => scanLoopF (v.length + 1) v p [] 0

/-- Python `list.sort()` on the numbered-substitution list: a stable
ascending sort (on `Nat` any correct sort computes the same list). -/
def pySort (l : List Nat) : List Nat :=
  l.insertionSort (· ≤ ·)

/-- Python `str(list_of_ints)`, e.g. `"[1, 2]"`; `''.join(str(l))` in the
source equals `str(l)`.  This is the stored signature string. -/
def pyStrList (l : List Nat) : String :=
  "[" ++ String.intercalate ", " (l.map (fun n => toString n)) ++ "]"

/-- The largest explicit placeholder index, `0` if there is none (the
spec's `maxIndex`). -/
def maxIdx (l : List Nat) : Nat := l.foldr Nat.max 0

/-! ## Python dicts as association lists (insertion order preserved) -/

/-- Dictionary lookup (`m[k]` / `m.get(k)`). -/
def lookupA (m : List (String × String)) (k : String) : Option String :=
  match m with
  | [] => none
  | (k', v) :: rest => if k' = k then some v else lookupA rest k

/-- Python `k in m`. -/
def hasKey (m : List (String × String)) (k : String) : Bool :=
  (lookupA m k).isSome

/-- Python `m[k] = v`: overwrite in place if present, else append. -/
def dictSet (m : List (String × String)) (k v : String) : List (String × String) :=
  if hasKey m k then m.map (fun p => if p.1 = k then (k, v) else p)
  else m ++ [(k, v)]

/-! ## The diagnostic sink (`CheckLoc._log_message` and friends)

Each `Diag` constructor corresponds to one message-formatting call site in
the Python source, carrying the same data that is interpolated into the
format string there. -/

/-- Severity: which log function `_log_message` was handed
(`logging.error`, `warnings.warn`, or plain printing). -/
inductive Sev where
  | err
  | warn
  | normal
deriving DecidableEq

def isErrSev : Sev → Bool
  | .err => true
  | _ => false

inductive Diag where
  | locDirMissing
  | noLocDirs
  | noLangFolders
  | noBaseline
  | noBaselineKeys (name : String)
  | startingTests
  | foundLangs (n : Nat)
  | keysFound (n : Nat) (name : String)
  | doneMsg
  | dupLocaleRegistration (locale : String)
  | manifestNote (n : Nat)
  | bomError (path : String)
  | dupDtdKey (key path : String)
  | invalidCharLt (key path : String)
  | blankDtdValue (key path : String)
  | dtdParseError (path : String) (line col : Nat) (message : String)
  | notDtdOrProperties (path : String)
  | emptyPropFile (path : String)
  | dupPropKey (key path : String)
  | blankPropValue (key path : String)
  | improperPct (key path value : String) (pos : Nat)
  | tooManySubs (key lang : String)
  | malformedLine (line path : String)
  | keyMissing (key inLoc notInLoc : String)
  | subMissingInBaseline (key locName baseName : String)
  | subMismatchLocSide (key locName baseName locSig baseSig : String)
  | subMissingInLoc (key baseName locName : String)
  | subMismatchBaseSide (key locName baseName locSig baseSig : String)
deriving DecidableEq

/-- One logged message: severity, the `lang` tag (`"Main"` when absent),
and the structured message body. -/
structure Msg where
  sev : Sev
  lang : String
  diag : Diag
deriving DecidableEq

/-- The state written by `CheckLoc._log_message`: the `any_errors` flag plus
the stream of messages (flat; `--group-by-language` only reroutes output). -/
structure Sink where
  anyErrors : Bool
  msgs : List Msg
deriving DecidableEq

def emptySink : Sink := ⟨false, []⟩

/-- `CheckLoc._log_message`: sets `any_errors` exactly when the log function
is `logging.error`, then appends the message. -/
def logMessage (sk : Sink) (sev : Sev) (lang : Option String) (d : Diag) : Sink :=
  ⟨sk.anyErrors || isErrSev sev, sk.msgs ++ [⟨sev, lang.getD "Main", d⟩]⟩

def logError (sk : Sink) (lang : Option String) (d : Diag) : Sink :=
  logMessage sk .err lang d

def logWarning (sk : Sink) (lang : Option String) (d : Diag) : Sink :=
  logMessage sk .warn lang d

def logNormal (sk : Sink) (lang : Option String) (d : Diag) : Sink :=
  logMessage sk .normal lang d

/-! ## LocalizationLanguage -/

/-- The mutable state of one `LocalizationLanguage`: the `keys` and `subs`
dictionaries plus the `parsing_errors` flag. -/
structure LocLang where
  name : String
  keys : List (String × String)
  subs : List (String × String)
  parsingErrors : Bool
deriving DecidableEq

/-- `LocalizationLanguage._log_error`: set `parsing_errors` and forward to
the parent sink as an error tagged with this language's name. -/
def llLogError (ll : LocLang) (sk : Sink) (d : Diag) : LocLang × Sink :=
  ({ ll with parsingErrors := true }, logError sk (some ll.name) d)

/-- `MOZILLA_MAX_PROPERTIES_STRING_SUBS`. -/
def MAX_SUBS : Nat := 10

/-- The too-many-substitutions condition of `_parse_properties_file`, on the
already sorted numbered list (`numeric_subs_list[-1]` is `getLastD 0`). -/
def limitCheck (sorted : List Nat) (anon : Nat) : Bool :=
  (!sorted.isEmpty && decide (sorted.getLastD 0 > MAX_SUBS)) ||
  decide (anon > MAX_SUBS) ||
  (!sorted.isEmpty && decide (sorted.getLastD 0 + anon > MAX_SUBS))

/--
The body of the `if match:` branch of `_parse_properties_file`: duplicate
check, blank check, optional placeholder scan, stores into `keys`/`subs`.
`k`/`v` are the two regex groups.
-/
def processRecord (filePath fileName lang : String) (k v : List Char)
    (ll : LocLang) (sk : Sink) : LocLang × Sink :=
  let key := fileName ++ "/" ++ (⟨k⟩ : String)
  if hasKey ll.keys key then
    llLogError ll sk (.dupPropKey key filePath)
  else if v.length < 1 then
    llLogError ll sk (.blankPropValue key filePath)
  else if v.contains '%' then
    match scanValue v with
    | .error pos => llLogError ll sk (.improperPct key filePath ⟨v⟩ pos)
    | .ok nsl anon =>
      let ll1 := { ll with keys := dictSet ll.keys key ⟨v⟩ }
      let sorted := pySort nsl
      let r2 :=
        if limitCheck sorted anon then llLogError ll1 sk (.tooManySubs key lang)
        else (ll1, sk)
      ({ r2.1 with subs := dictSet r2.1.subs key (pyStrList sorted) }, r2.2)
  else
    ({ ll with keys := dictSet ll.keys key ⟨v⟩ }, sk)

/-- One iteration of the `for line in data:` loop of
`_parse_properties_file` (blank skip, regex match, malformed-line error). -/
def processPropSegment (filePath fileName lang : String)
    (ll : LocLang) (sk : Sink) (seg : List Char) : LocLang × Sink :=
  if seg.all isPyWs then (ll, sk)
  else
    match propLineMatch seg with
    | some (kv) => processRecord filePath fileName lang kv.1 kv.2 ll sk
    | none =>
      if seg.length > 0 then llLogError ll sk (.malformedLine ⟨seg⟩ filePath)
      else (ll, sk)

/-- `file_name.replace(LSEP, '')`. -/
def removeSep (s : String) : String :=
  ⟨s.data.filter (fun c => !(c = '/'))⟩

/--
`LocalizationLanguage._parse_properties_file`.  The file read is abstracted
into the `content` argument; `filePath` stands for the path (here the bare
file name, directory handling being abstracted away) and `lang` for
`basename(dirname(file_path))`.
-/
def parsePropertiesFile (filePath lang : String) (content : String)
    (ll : LocLang) (sk : Sink) : LocLang × Sink :=
  let fileName := removeSep filePath
  if content.length < 1 then
    (ll, logWarning sk (some ll.name) (.emptyPropFile filePath))
  else
    (splitSegs (removeComments content.data)).foldl
      (fun p seg => processPropSegment filePath fileName lang p.1 p.2 seg)
      (ll, sk)

/-! ## get_loc_keys: per-file dispatch

The filesystem walk and the lxml DTD grammar are abstracted: a `LocFile`
carries the file's name, whether its raw bytes start with the UTF-8 BOM,
and what processing its content yields — for `.dtd` files the outcome of
`etree.DTD` (either the `(name, content)` entity list or the first parse
error's extracted line/column/message), for `.properties` files the text
content.  The extension dispatch of `get_loc_keys` is represented by the
`FileKind` constructor. -/

/-- Outcome of `etree.DTD` on one `.dtd` file: the entity list, or the
extracted first parse error (line, column, message). -/
inductive DtdResult where
  | entities (ents : List (String × String))
  | parseError (line col : Nat) (message : String)
deriving DecidableEq

inductive FileKind where
  | dtd (result : DtdResult)
  | properties (content : String)
  | other
deriving DecidableEq

structure LocFile where
  name : String
  hasBOM : Bool
  kind : FileKind
deriving DecidableEq

/-- One iteration of the `for entity in dtd.entities():` loop. -/
def processEntity (filePath fileName : String)
    (ll : LocLang) (sk : Sink) (ent : String × String) : LocLang × Sink :=
  let key := fileName ++ "/" ++ ent.1
  if hasKey ll.keys key then
    llLogError ll sk (.dupDtdKey key filePath)
  else if ent.2.contains '<' then
    llLogError ll sk (.invalidCharLt key filePath)
  else
    let sk1 :=
      if ent.2.length < 1 then logWarning sk (some ll.name) (.blankDtdValue key filePath)
      else sk
    ({ ll with keys := dictSet ll.keys key ent.2 }, sk1)

/-- One iteration of the `for file_name in loc_files:` loop of
`get_loc_keys`: BOM check, then dispatch by extension. -/
def processFile (ll : LocLang) (sk : Sink) (f : LocFile) : LocLang × Sink :=
  let fileName := removeSep f.name
  let p1 := if f.hasBOM then llLogError ll sk (.bomError f.name) else (ll, sk)
  match f.kind with
  | .dtd (.entities ents) =>
    ents.foldl (fun p e => processEntity f.name fileName p.1 p.2 e) p1
  | .dtd (.parseError line col message) =>
    llLogError p1.1 p1.2 (.dtdParseError f.name line col message)
  | .properties content =>
    parsePropertiesFile f.name p1.1.name content p1.1 p1.2
  | .other =>
    (p1.1, logWarning p1.2 (some p1.1.name) (.notDtdOrProperties f.name))

/-- `LocalizationLanguage.get_loc_keys` for a language built fresh
(`keys = subs = {}`, `parsing_errors = False`). -/
def getLocKeys (name : String) (files : List LocFile) (sk : Sink) : LocLang × Sink :=
  files.foldl (fun p f => processFile p.1 p.2 f) (⟨name, [], [], false⟩, sk)

/-! ## The comparison loops of validate_loc_files (lines 787-825) -/

/-- The two key-presence loops: report every key of `pairs` absent from
`targetKeys`. -/
def keysLoop (targetKeys : List (String × String)) (inName notInName lang : String)
    (sk : Sink) (pairs : List (String × String)) : Sink :=
  pairs.foldl (fun sk p =>
    if hasKey targetKeys p.1 then sk
    else logError sk (some lang) (.keyMissing p.1 inName notInName)) sk

/-- The `for key in loc.subs:` loop. -/
def subsLoopA (baseSubs : List (String × String)) (locName baseName lang : String)
    (sk : Sink) (pairs : List (String × String)) : Sink :=
  pairs.foldl (fun sk p =>
    match lookupA baseSubs p.1 with
    | none => logError sk (some lang) (.subMissingInBaseline p.1 locName baseName)
    | some bv =>
      if p.2 = bv then sk
      else logError sk (some lang) (.subMismatchLocSide p.1 locName baseName p.2 bv)) sk

/-- The `for key in baseline.subs:` loop. -/
def subsLoopB (locSubs : List (String × String)) (locName baseName lang : String)
    (sk : Sink) (pairs : List (String × String)) : Sink :=
  pairs.foldl (fun sk p =>
    match lookupA locSubs p.1 with
    | none => logError sk (some lang) (.subMissingInLoc p.1 baseName locName)
    | some lv =>
      if lv = p.2 then sk
      else logError sk (some lang) (.subMismatchBaseSide p.1 locName baseName lv p.2)) sk

/-- The whole per-locale comparison block of `validate_loc_files`. -/
def compareKeys (baseline loc : LocLang) (lang : String) (sk : Sink) : Sink :=
  let s1 := keysLoop baseline.keys loc.name baseline.name lang sk loc.keys
  let s2 := keysLoop loc.keys baseline.name loc.name lang s1 baseline.keys
  let s3 := subsLoopA baseline.subs loc.name baseline.name lang s2 loc.subs
  subsLoopB loc.subs loc.name baseline.name lang s3 baseline.subs

/-! ## The orchestrator `validate_loc_files` and `main`

Filesystem and manifest parsing are abstracted into an environment:
`manifestMsgs` is the sequence of messages `ManifestSet.validate_manifests`
logs (each routed through the same sink functions the code uses),
`locBaseDirsNonempty` whether `get_loc_base_dirs()` is non-empty, and
`langs` the discovered locale-folder map (name, files) in iteration
order. -/

structure Env where
  manifestDirExists : Bool
  localesOnly : Bool
  manifestMsgs : List Msg
  locBaseDirsNonempty : Bool
  langs : List (String × List LocFile)
deriving DecidableEq

/-- Replaying one abstract manifest-phase message through the sink. -/
def replayMsg (sk : Sink) (m : Msg) : Sink :=
  ⟨sk.anyErrors || isErrSev m.sev, sk.msgs ++ [m]⟩

/-- Lookup in the discovered language map. -/
def lookupFiles (langs : List (String × List LocFile)) (k : String) :
    Option (List LocFile) :=
  match langs with
  | [] => none
  | (k', v) :: rest => if k' = k then some v else lookupFiles rest k

/-- `CheckLoc.BASE_LOC`. -/
def BASE_LOC : String := "en-US"

/-- The `for lang in langs:` comparison loop of `validate_loc_files`. -/
def vlfLoop (baseline : LocLang) (rest : List (String × List LocFile))
    (sk : Sink) : Sink :=
  rest.foldl (fun sk p =>
    let r := getLocKeys p.1 p.2 sk
    let sk1 : Sink := ⟨r.2.anyErrors || r.1.parsingErrors, r.2.msgs⟩
    compareKeys baseline r.1 p.1 sk1) sk

/-- The tail of `validate_loc_files` after the locale base directories have
been resolved (lines 747-828): discover languages, build and check the
baseline, then run the comparison loop. -/
def vlfAfterDirs (env : Env) (sk : Sink) : Bool × Sink :=
  if env.langs.length < 1 then
    (true, logError sk none .noLangFolders)
  else
    let sk3 := logNormal sk none (.foundLangs env.langs.length)
    if !(env.langs.any (fun p => p.1 = BASE_LOC)) then
      (true, logError sk3 none .noBaseline)
    else
      let bl := getLocKeys BASE_LOC ((lookupFiles env.langs BASE_LOC).getD []) sk3
      let sk4 : Sink := ⟨bl.2.anyErrors || bl.1.parsingErrors, bl.2.msgs⟩
      if bl.1.keys.length < 1 then
        (true, logError sk4 none (.noBaselineKeys BASE_LOC))
      else if sk4.anyErrors then
        (true, sk4)
      else
        let sk5 := logNormal sk4 none (.keysFound bl.1.keys.length BASE_LOC)
        let rest := env.langs.filter (fun p => !(p.1 = BASE_LOC))
        let sk6 := vlfLoop bl.1 rest sk5
        let sk7 := logNormal sk6 none .doneMsg
        (sk7.anyErrors, sk7)

/-- `CheckLoc.validate_loc_files`: returns the verdict boolean and the
final sink.  In `--locales-only` mode the manifest phase is skipped and the
given directory itself is the (non-empty) base-directory list. -/
def validateLocFiles (env : Env) : Bool × Sink :=
  let sk1 := logNormal emptySink none .startingTests
  if env.manifestDirExists = false then
    (true, logError sk1 none .locDirMissing)
  else if env.localesOnly then
    vlfAfterDirs env sk1
  else
    let sk2 := env.manifestMsgs.foldl replayMsg sk1
    if !env.locBaseDirsNonempty then
      (true, logError sk2 none .noLocDirs)
    else
      vlfAfterDirs env sk2

/-- `main`: `sys.exit(1)` iff `validate_loc_files` returned errors. -/
def mainExitCode (env : Env) : Nat :=
  if (validateLocFiles env).1 then 1 else 0

/-! ## Derived notions used in the statements -/

/-- The sink is coherent: the `any_errors` flag holds exactly when an
error-severity message has been logged. -/
def SinkInv (sk : Sink) : Prop :=
  sk.anyErrors = sk.msgs.any (fun m => isErrSev m.sev)

/-- Invariant tying a language state to the sink: coherent sink, and a set
`parsing_errors` flag implies a set `any_errors` flag. -/
def PairInv (p : LocLang × Sink) : Prop :=
  SinkInv p.2 ∧ (p.1.parsingErrors = true → p.2.anyErrors = true)

/-- A sink transformer only appends messages and or-accumulates the flag,
independently of the incoming sink. -/
def SinkFrame (g : Sink → Sink) : Prop :=
  ∀ sk, g sk = ⟨sk.anyErrors || (g emptySink).anyErrors,
                sk.msgs ++ (g emptySink).msgs⟩

/-- Same for a transformer of a language/sink pair: the language result is
sink-independent and the sink part is append-only. -/
def PairFrame (g : LocLang × Sink → LocLang × Sink) : Prop :=
  ∀ ll sk, g (ll, sk) = ((g (ll, emptySink)).1,
    ⟨sk.anyErrors || (g (ll, emptySink)).2.anyErrors,
     sk.msgs ++ (g (ll, emptySink)).2.msgs⟩)

/-- `get_loc_keys` run against a fresh sink: the locale's build result and
the diagnostics this build alone emits. -/
def buildOutcome (name : String) (files : List LocFile) : LocLang × Sink :=
  getLocKeys name files emptySink

def buildDelta (name : String) (files : List LocFile) : List Msg :=
  (buildOutcome name files).2.msgs

/-- The diagnostics one locale comparison alone emits. -/
def compareDelta (baseline loc : LocLang) (lang : String) : List Msg :=
  (compareKeys baseline loc lang emptySink).msgs

/-- The diagnostics one iteration of the comparison loop emits: build the
locale, then compare it to the baseline. -/
def vlfStepDelta (baseline : LocLang) (p : String × List LocFile) : List Msg :=
  buildDelta p.1 p.2 ++ compareDelta baseline (buildOutcome p.1 p.2).1 p.1

/-- The messages one `keysLoop` iteration appends. -/
def keysLoopStep (targetKeys : List (String × String))
    (inName notInName lang : String) (p : String × String) : List Msg :=
  if hasKey targetKeys p.1 then []
  else [⟨.err, lang, .keyMissing p.1 inName notInName⟩]

/-- The messages one `subsLoopA` iteration appends. -/
def subsLoopAStep (baseSubs : List (String × String))
    (locName baseName lang : String) (p : String × String) : List Msg :=
  match lookupA baseSubs p.1 with
  | none => [⟨.err, lang, .subMissingInBaseline p.1 locName baseName⟩]
  | some bv =>
    if p.2 = bv then []
    else [⟨.err, lang, .subMismatchLocSide p.1 locName baseName p.2 bv⟩]

/-- The messages one `subsLoopB` iteration appends. -/
def subsLoopBStep (locSubs : List (String × String))
    (locName baseName lang : String) (p : String × String) : List Msg :=
  match lookupA locSubs p.1 with
  | none => [⟨.err, lang, .subMissingInLoc p.1 baseName locName⟩]
  | some lv =>
    if lv = p.2 then []
    else [⟨.err, lang, .subMismatchBaseSide p.1 locName baseName lv p.2⟩]

/-- Signature-mismatch diagnostic (either direction) for a given key. -/
def isSigMismatchFor (k : String) (m : Msg) : Bool :=
  match m.diag with
  | .subMismatchLocSide k' _ _ _ _ => decide (k' = k)
  | .subMismatchBaseSide k' _ _ _ _ => decide (k' = k)
  | _ => false

/-- Substitution-presence diagnostic (signature recorded on one side only)
for a given key. -/
def isSubPresenceFor (k : String) (m : Msg) : Bool :=
  match m.diag with
  | .subMissingInBaseline k' _ _ => decide (k' = k)
  | .subMissingInLoc k' _ _ => decide (k' = k)
  | _ => false

/-- Any substitution-related comparison diagnostic for a given key. -/
def isSubDiagFor (k : String) (m : Msg) : Bool :=
  isSigMismatchFor k m || isSubPresenceFor k m

/-- Any diagnostic produced by the comparison phase (key presence or
substitution checks). -/
def isCompareDiag (d : Diag) : Bool :=
  match d with
  | .keyMissing _ _ _ => true
  | .subMissingInBaseline _ _ _ => true
  | .subMissingInLoc _ _ _ => true
  | .subMismatchLocSide _ _ _ _ _ => true
  | .subMismatchBaseSide _ _ _ _ _ => true
  | _ => false

/-- Malformed-line diagnostic. -/
def isMalformedLine (m : Msg) : Bool :=
  match m.diag with
  | .malformedLine _ _ => true
  | _ => false

/-- A fresh `LocalizationLanguage` state. -/
def freshLL (name : String) : LocLang := ⟨name, [], [], false⟩

/-- C7 witness state: key `f.properties/k` already stored. -/
def llC7 : LocLang :=
  ⟨"de", [("f.properties/k", "%S")], [("f.properties/k", "[]")], false⟩

/-- The first character of `l`, if any, is not a `[\n\r\f]` terminator. -/
def headNotTerm (l : List Char) : Bool :=
  match l with
  | [] => true
  | c :: _ => !isTerm c

/-! ## Concrete scenarios used by counterexamples and witnesses -/

/-- Baseline files for the C2 scenario: two keys, no parse problems. -/
def enFilesC2 : List LocFile :=
  [⟨"f.properties", false, .properties "a=x\nb=y\n"⟩]

/-- Target-locale files for the C2 scenario: key `b` is missing, so a
comparison (if it ran) would report it. -/
def deFilesC2 : List LocFile :=
  [⟨"f.properties", false, .properties "a=x\n"⟩]

/-- C2 scenario: everything structurally fine, but the manifest phase has
recorded one (non-structural) duplicate-registration error. -/
def envC2 : Env :=
  ⟨true, false, [⟨.err, "Main", .dupLocaleRegistration "de"⟩], true,
   [("en-US", enFilesC2), ("de", deFilesC2)]⟩

/-- C2 witness scenario: like `envC2` but with a clean manifest phase and a
parse error in one of two target locales. -/
def envC2w : Env :=
  ⟨true, false, [], true,
   [("en-US", enFilesC2), ("de", deFilesC2),
    ("fr", [⟨"f.properties", false, .properties "a=x\nb=%\n"⟩])]⟩

/-- C3 scenario baseline: key `k` with signature `[1]`, key `m` absent. -/
def blC3 : LocLang :=
  (buildOutcome "en-US" [⟨"f.properties", false, .properties "k=%1$S\n"⟩]).1

/-- C3 scenario locale: `k` with signature `[1, 2]`, plus `m` with an
(anonymous-only) signature, absent from the baseline. -/
def locC3 : LocLang :=
  (buildOutcome "de"
    [⟨"f.properties", false, .properties "k=%1$S and %2$S\nm=%S\n"⟩]).1

/-- C4 scenario baseline: `k` has no placeholders at all (no signature
recorded). -/
def blC4 : LocLang :=
  (buildOutcome "en-US" [⟨"f.properties", false, .properties "k=x\n"⟩]).1

/-- C4 scenario locale: `k` has one anonymous placeholder (signature `[]`
recorded); explicit-index lists agree (both empty). -/
def locC4 : LocLang :=
  (buildOutcome "de" [⟨"f.properties", false, .properties "k=%S\n"⟩]).1

/-- C4 witness baseline: explicit indices 2, 1 (in that order), no
anonymous placeholder. -/
def blC4w : LocLang :=
  (buildOutcome "en-US"
    [⟨"f.properties", false, .properties "k=%2$S and %1$S\n"⟩]).1

/-- C4 witness locale: explicit indices 1, 2 plus one extra anonymous
placeholder; the sorted explicit lists agree. -/
def locC4w : LocLang :=
  (buildOutcome "de"
    [⟨"f.properties", false, .properties "k=%1$S%2$S extra %S\n"⟩]).1

/-! # Proofs -/

/-! ## Generic fold helper -/

theorem foldl_preserve {α β : Type} (P : β → Prop) (f : β → α → β)
    (h : ∀ b a, P b → P (f b a)) :
    ∀ (l : List α) (b : β), P b → P (l.foldl f b)
  | [], _, hb => hb
  | a :: l, b, hb => foldl_preserve P f h l (f b a) (h b a hb)

/-! ## Sink coherence (`any_errors` tracks logged errors) -/

theorem sinkInv_empty : SinkInv emptySink := rfl

theorem isErrSev_iff (s : Sev) : isErrSev s = true ↔ s = Sev.err := by
  cases s <;> simp [isErrSev]

theorem sinkInv_logMessage (sk : Sink) (sev : Sev) (lang : Option String)
    (d : Diag) (h : SinkInv sk) : SinkInv (logMessage sk sev lang d) := by
  simp only [SinkInv, logMessage, List.any_append, List.any_cons, List.any_nil,
    Bool.or_false] at h ⊢
  rw [h]

theorem logError_anyErrors (sk : Sink) (lang : Option String) (d : Diag) :
    (logError sk lang d).anyErrors = true := by
  simp [logError, logMessage, isErrSev]

theorem logWarning_anyErrors (sk : Sink) (lang : Option String) (d : Diag) :
    (logWarning sk lang d).anyErrors = sk.anyErrors := by
  simp [logWarning, logMessage, isErrSev]

theorem logMessage_msgs (sk : Sink) (sev : Sev) (lang : Option String) (d : Diag) :
    (logMessage sk sev lang d).msgs = sk.msgs ++ [⟨sev, lang.getD "Main", d⟩] := rfl

theorem logNormal_anyErrors (sk : Sink) (lang : Option String) (d : Diag) :
    (logNormal sk lang d).anyErrors = sk.anyErrors := by
  simp [logNormal, logMessage, isErrSev]

theorem sinkInv_replayMsg (sk : Sink) (m : Msg) (h : SinkInv sk) :
    SinkInv (replayMsg sk m) := by
  simp only [SinkInv, replayMsg, List.any_append, List.any_cons, List.any_nil,
    Bool.or_false] at h ⊢
  rw [h]

theorem pairInv_llLogError (ll : LocLang) (sk : Sink) (d : Diag)
    (h : SinkInv sk) : PairInv (llLogError ll sk d) :=
  ⟨sinkInv_logMessage sk .err (some ll.name) d h,
   fun _ => logError_anyErrors sk (some ll.name) d⟩

theorem pairInv_logWarning (ll : LocLang) (sk : Sink) (lang : Option String)
    (d : Diag) (h : PairInv (ll, sk)) : PairInv (ll, logWarning sk lang d) := by
  obtain ⟨h1, h2⟩ := h
  refine ⟨sinkInv_logMessage sk .warn lang d h1, fun hp => ?_⟩
  rw [logWarning_anyErrors]
  exact h2 hp

theorem pairInv_processRecord (fp fn lg : String) (k v : List Char)
    (ll : LocLang) (sk : Sink) (h : PairInv (ll, sk)) :
    PairInv (processRecord fp fn lg k v ll sk) := by
  obtain ⟨h1, h2⟩ := h
  simp only [processRecord]
  split
  · exact pairInv_llLogError _ _ _ h1
  · split
    · exact pairInv_llLogError _ _ _ h1
    · split
      · split
        · exact pairInv_llLogError _ _ _ h1
        · split
          · exact ⟨sinkInv_logMessage _ _ _ _ h1,
              fun _ => logError_anyErrors _ _ _⟩
          · exact ⟨h1, h2⟩
      · exact ⟨h1, h2⟩

theorem pairInv_processPropSegment (fp fn lg : String) (ll : LocLang)
    (sk : Sink) (seg : List Char) (h : PairInv (ll, sk)) :
    PairInv (processPropSegment fp fn lg ll sk seg) := by
  simp only [processPropSegment]
  split
  · exact h
  · split
    · exact pairInv_processRecord _ _ _ _ _ _ _ h
    · split
      · exact pairInv_llLogError _ _ _ h.1
      · exact h

theorem pairInv_parsePropertiesFile (fp lg : String) (content : String)
    (ll : LocLang) (sk : Sink) (h : PairInv (ll, sk)) :
    PairInv (parsePropertiesFile fp lg content ll sk) := by
  simp only [parsePropertiesFile]
  split
  · exact pairInv_logWarning _ _ _ _ h
  · exact foldl_preserve PairInv _
      (fun p seg hp => pairInv_processPropSegment _ _ _ p.1 p.2 seg hp) _ _ h

theorem pairInv_processEntity (fp fn : String) (ll : LocLang) (sk : Sink)
    (ent : String × String) (h : PairInv (ll, sk)) :
    PairInv (processEntity fp fn ll sk ent) := by
  obtain ⟨h1, h2⟩ := h
  simp only [processEntity]
  split
  · exact pairInv_llLogError _ _ _ h1
  · split
    · exact pairInv_llLogError _ _ _ h1
    · split
      · exact ⟨sinkInv_logMessage _ _ _ _ h1,
          fun hp => by rw [logWarning_anyErrors]; exact h2 hp⟩
      · exact ⟨h1, h2⟩

theorem pairInv_processFile (ll : LocLang) (sk : Sink) (f : LocFile)
    (h : PairInv (ll, sk)) : PairInv (processFile ll sk f) := by
  simp only [processFile]
  have hp1 : PairInv (if f.hasBOM then llLogError ll sk (.bomError f.name)
      else (ll, sk)) := by
    split
    · exact pairInv_llLogError _ _ _ h.1
    · exact h
  split
  · exact foldl_preserve PairInv _
      (fun p e hp => pairInv_processEntity _ _ p.1 p.2 e hp) _ _ hp1
  · exact pairInv_llLogError _ _ _ hp1.1
  · exact pairInv_parsePropertiesFile _ _ _ _ _ hp1
  · exact pairInv_logWarning _ _ _ _ hp1

theorem pairInv_getLocKeys (name : String) (files : List LocFile) (sk : Sink)
    (h : SinkInv sk) : PairInv (getLocKeys name files sk) := by
  simp only [getLocKeys]
  exact foldl_preserve PairInv _
    (fun p f hp => pairInv_processFile p.1 p.2 f hp) _ _
    ⟨h, fun hf => by simp at hf⟩

/-- Line 766/785 of the source: after `get_loc_keys`, or-ing in the
returned `parsing_errors` keeps the sink coherent. -/
theorem sinkInv_after_build (name : String) (files : List LocFile) (sk : Sink)
    (h : SinkInv sk) :
    SinkInv (⟨(getLocKeys name files sk).2.anyErrors ||
              (getLocKeys name files sk).1.parsingErrors,
              (getLocKeys name files sk).2.msgs⟩ : Sink) := by
  obtain ⟨hs, himp⟩ := pairInv_getLocKeys name files sk h
  cases hpe : (getLocKeys name files sk).1.parsingErrors
  · simpa [SinkInv] using hs
  · have ha := himp hpe
    simp only [SinkInv] at hs ⊢
    simp [ha, ← hs]

theorem sinkInv_keysLoop (targetKeys : List (String × String))
    (a b lang : String) (sk : Sink) (pairs : List (String × String))
    (h : SinkInv sk) : SinkInv (keysLoop targetKeys a b lang sk pairs) := by
  simp only [keysLoop]
  refine foldl_preserve SinkInv _ (fun sk p hp => ?_) pairs sk h
  split
  · exact hp
  · exact sinkInv_logMessage _ _ _ _ hp

theorem sinkInv_subsLoopA (baseSubs : List (String × String))
    (a b lang : String) (sk : Sink) (pairs : List (String × String))
    (h : SinkInv sk) : SinkInv (subsLoopA baseSubs a b lang sk pairs) := by
  simp only [subsLoopA]
  refine foldl_preserve SinkInv _ (fun sk p hp => ?_) pairs sk h
  split
  · exact sinkInv_logMessage _ _ _ _ hp
  · split
    · exact hp
    · exact sinkInv_logMessage _ _ _ _ hp

theorem sinkInv_subsLoopB (locSubs : List (String × String))
    (a b lang : String) (sk : Sink) (pairs : List (String × String))
    (h : SinkInv sk) : SinkInv (subsLoopB locSubs a b lang sk pairs) := by
  simp only [subsLoopB]
  refine foldl_preserve SinkInv _ (fun sk p hp => ?_) pairs sk h
  split
  · exact sinkInv_logMessage _ _ _ _ hp
  · split
    · exact hp
    · exact sinkInv_logMessage _ _ _ _ hp

theorem sinkInv_compareKeys (baseline loc : LocLang) (lang : String)
    (sk : Sink) (h : SinkInv sk) : SinkInv (compareKeys baseline loc lang sk) := by
  simp only [compareKeys]
  exact sinkInv_subsLoopB _ _ _ _ _ _
    (sinkInv_subsLoopA _ _ _ _ _ _
      (sinkInv_keysLoop _ _ _ _ _ _ (sinkInv_keysLoop _ _ _ _ _ _ h)))

theorem sinkInv_vlfLoop (baseline : LocLang)
    (rest : List (String × List LocFile)) (sk : Sink) (h : SinkInv sk) :
    SinkInv (vlfLoop baseline rest sk) := by
  simp only [vlfLoop]
  refine foldl_preserve SinkInv _ (fun sk p hp => ?_) rest sk h
  exact sinkInv_compareKeys _ _ _ _ (sinkInv_after_build p.1 p.2 sk hp)

/-- The tail after directory resolution: verdict equals the flag, sink
stays coherent. -/
theorem vlfAfterDirs_spec (env : Env) (sk : Sink) (h : SinkInv sk) :
    (vlfAfterDirs env sk).1 = (vlfAfterDirs env sk).2.anyErrors ∧
    SinkInv (vlfAfterDirs env sk).2 := by
  simp only [vlfAfterDirs]
  split
  · exact ⟨(logError_anyErrors _ _ _).symm, sinkInv_logMessage _ _ _ _ h⟩
  · have h3 : SinkInv (logNormal sk none (.foundLangs env.langs.length)) :=
      sinkInv_logMessage _ _ _ _ h
    split
    · exact ⟨(logError_anyErrors _ _ _).symm, sinkInv_logMessage _ _ _ _ h3⟩
    · have h4 := sinkInv_after_build BASE_LOC
        ((lookupFiles env.langs BASE_LOC).getD []) _ h3
      split
      · exact ⟨(logError_anyErrors _ _ _).symm, sinkInv_logMessage _ _ _ _ h4⟩
      · split
        · next hcond => exact ⟨hcond.symm, h4⟩
        · exact ⟨rfl, sinkInv_logMessage _ _ _ _
            (sinkInv_vlfLoop _ _ _ (sinkInv_logMessage _ _ _ _ h4))⟩

/-- The verdict of `validate_loc_files` equals its `any_errors` flag, and
the final sink is coherent. -/
theorem validateLocFiles_spec (env : Env) :
    (validateLocFiles env).1 = (validateLocFiles env).2.anyErrors ∧
    SinkInv (validateLocFiles env).2 := by
  have h1 : SinkInv (logNormal emptySink none .startingTests) :=
    sinkInv_logMessage _ _ _ _ sinkInv_empty
  have h2 : SinkInv (env.manifestMsgs.foldl replayMsg
      (logNormal emptySink none .startingTests)) :=
    foldl_preserve SinkInv _ (fun sk m hp => sinkInv_replayMsg sk m hp) _ _ h1
  simp only [validateLocFiles]
  split
  · exact ⟨(logError_anyErrors _ _ _).symm, sinkInv_logMessage _ _ _ _ h1⟩
  · split
    · exact vlfAfterDirs_spec env _ h1
    · split
      · exact ⟨(logError_anyErrors _ _ _).symm, sinkInv_logMessage _ _ _ _ h2⟩
      · exact vlfAfterDirs_spec env _ h2

/--
C1: the boolean returned by `validate_loc_files` (and hence a non-zero exit
status of `main`) is true if and only if at least one error-severity
diagnostic — not a warning — was recorded anywhere during the run;
recording only warnings leaves the verdict at pass.
-/
theorem c1_verdict_iff_error_logged (env : Env) :
    ((validateLocFiles env).1 = true ↔
      ∃ m ∈ (validateLocFiles env).2.msgs, m.sev = Sev.err) ∧
    (mainExitCode env ≠ 0 ↔
      ∃ m ∈ (validateLocFiles env).2.msgs, m.sev = Sev.err) := by
  obtain ⟨hf, hinv⟩ := validateLocFiles_spec env
  have key : (validateLocFiles env).1 = true ↔
      ∃ m ∈ (validateLocFiles env).2.msgs, m.sev = Sev.err := by
    rw [hf, SinkInv] at *
    rw [hinv, List.any_eq_true]
    constructor
    · rintro ⟨m, hm, hp⟩
      exact ⟨m, hm, (isErrSev_iff m.sev).mp hp⟩
    · rintro ⟨m, hm, hp⟩
      exact ⟨m, hm, (isErrSev_iff m.sev).mpr hp⟩
  have key2 : mainExitCode env ≠ 0 ↔ (validateLocFiles env).1 = true := by
    unfold mainExitCode
    split <;> simp_all
  exact ⟨key, key2.trans key⟩

/-! ## Frame lemmas: every operation only appends to the sink -/

theorem pairFrame_llLogError (d : Diag) :
    PairFrame (fun p => llLogError p.1 p.2 d) := by
  intro ll sk
  simp [llLogError, logError, logMessage, emptySink, isErrSev]

theorem pairFrame_processRecord (fp fn lg : String) (k v : List Char) :
    PairFrame (fun p => processRecord fp fn lg k v p.1 p.2) := by
  intro ll sk
  simp only [processRecord]
  split
  · exact pairFrame_llLogError _ ll sk
  · split
    · exact pairFrame_llLogError _ ll sk
    · split
      · split
        · exact pairFrame_llLogError _ ll sk
        · split
          · simp [llLogError, logError, logMessage, emptySink, isErrSev]
          · simp [emptySink]
      · simp [emptySink]

theorem pairFrame_processPropSegment (fp fn lg : String) (seg : List Char) :
    PairFrame (fun p => processPropSegment fp fn lg p.1 p.2 seg) := by
  intro ll sk
  simp only [processPropSegment]
  split
  · simp [emptySink]
  · split
    · exact pairFrame_processRecord fp fn lg _ _ ll sk
    · split
      · exact pairFrame_llLogError _ ll sk
      · simp [emptySink]

theorem pairFrame_foldl {α : Type} (step : LocLang × Sink → α → LocLang × Sink)
    (h : ∀ a, PairFrame (fun p => step p a)) :
    ∀ l : List α, PairFrame (fun p => l.foldl step p) := by
  intro l
  induction l with
  | nil => intro ll sk; simp [emptySink]
  | cons a l ih =>
    intro ll sk
    rcases hs : step (ll, emptySink) a with ⟨ll0, sk0⟩
    have ha := h a ll sk
    simp only at ha ⊢
    rw [hs] at ha
    simp only [List.foldl_cons]
    rw [ha, hs]
    have ih1 := ih ll0 ⟨sk.anyErrors || sk0.anyErrors, sk.msgs ++ sk0.msgs⟩
    have ih2 := ih ll0 sk0
    simp only at ih1 ih2
    rw [ih1, ih2]
    simp [Bool.or_assoc, List.append_assoc]

theorem pairFrame_processEntity (fp fn : String) (ent : String × String) :
    PairFrame (fun p => processEntity fp fn p.1 p.2 ent) := by
  intro ll sk
  simp only [processEntity]
  split
  · exact pairFrame_llLogError _ ll sk
  · split
    · exact pairFrame_llLogError _ ll sk
    · split
      · simp [logWarning, logMessage, emptySink, isErrSev]
      · simp [emptySink]

theorem pairFrame_parsePropertiesFile (fp lg : String) (content : String) :
    PairFrame (fun p => parsePropertiesFile fp lg content p.1 p.2) := by
  intro ll sk
  simp only [parsePropertiesFile]
  split
  · simp [logWarning, logMessage, emptySink, isErrSev]
  · exact pairFrame_foldl _
      (fun seg => pairFrame_processPropSegment fp (removeSep fp) lg seg) _ ll sk

theorem pairFrame_comp {g h : LocLang × Sink → LocLang × Sink}
    (hg : PairFrame g) (hh : PairFrame h) : PairFrame (fun p => h (g p)) := by
  intro ll sk
  rcases hgs : g (ll, emptySink) with ⟨ll0, sk0⟩
  have hga := hg ll sk
  rw [hgs] at hga
  simp only at hga ⊢
  rw [hga, hgs]
  have hh1 := hh ll0 ⟨sk.anyErrors || sk0.anyErrors, sk.msgs ++ sk0.msgs⟩
  have hh2 := hh ll0 sk0
  rw [hh1, hh2]
  simp [Bool.or_assoc, List.append_assoc]

theorem pairFrame_bomStep (f : LocFile) :
    PairFrame (fun p =>
      if f.hasBOM then llLogError p.1 p.2 (Diag.bomError f.name) else p) := by
  by_cases hb : f.hasBOM
  · simp only [hb, ite_true]
    exact pairFrame_llLogError _
  · simp only [hb, ite_false]
    intro ll sk
    simp [emptySink]

theorem pairFrame_kindStep (f : LocFile) :
    PairFrame (fun p =>
      match f.kind with
      | .dtd (.entities ents) =>
        ents.foldl (fun p e => processEntity f.name (removeSep f.name) p.1 p.2 e) p
      | .dtd (.parseError line col message) =>
        llLogError p.1 p.2 (.dtdParseError f.name line col message)
      | .properties content => parsePropertiesFile f.name p.1.name content p.1 p.2
      | .other => (p.1, logWarning p.2 (some p.1.name) (.notDtdOrProperties f.name))) := by
  rcases hk : f.kind with r | content | _
  · rcases r with ents | ⟨line, col, message⟩
    · simp only [hk]
      exact pairFrame_foldl _ (fun e => pairFrame_processEntity _ _ e) ents
    · simp only [hk]
      exact pairFrame_llLogError _
  · simp only [hk]
    intro ll sk
    exact pairFrame_parsePropertiesFile f.name ll.name content ll sk
  · simp only [hk]
    intro ll sk
    simp [logWarning, logMessage, emptySink, isErrSev]

theorem pairFrame_processFile (f : LocFile) :
    PairFrame (fun p => processFile p.1 p.2 f) := by
  intro ll sk
  exact pairFrame_comp (pairFrame_bomStep f) (pairFrame_kindStep f) ll sk

/-- `get_loc_keys` from an arbitrary sink, expressed through its run from a
fresh sink (`buildOutcome`). -/
theorem getLocKeys_frame (name : String) (files : List LocFile) (sk : Sink) :
    getLocKeys name files sk = ((buildOutcome name files).1,
      ⟨sk.anyErrors || (buildOutcome name files).2.anyErrors,
       sk.msgs ++ (buildOutcome name files).2.msgs⟩) :=
  pairFrame_foldl _ (fun f => pairFrame_processFile f) files ⟨name, [], [], false⟩ sk

/-! ## Message streams of the comparison loops -/

theorem keysLoop_msgs (t : List (String × String)) (a b lang : String) :
    ∀ (pairs : List (String × String)) (sk : Sink),
    (keysLoop t a b lang sk pairs).msgs =
      sk.msgs ++ pairs.flatMap (keysLoopStep t a b lang) := by
  intro pairs
  induction pairs with
  | nil => intro sk; simp [keysLoop]
  | cons p rest ih =>
    intro sk
    simp only [keysLoop, List.foldl_cons] at ih ⊢
    rw [ih]
    by_cases hk : hasKey t p.1
    · simp [keysLoopStep, hk]
    · simp [keysLoopStep, hk, logError, logMessage]

theorem subsLoopA_msgs (bs : List (String × String)) (a b lang : String) :
    ∀ (pairs : List (String × String)) (sk : Sink),
    (subsLoopA bs a b lang sk pairs).msgs =
      sk.msgs ++ pairs.flatMap (subsLoopAStep bs a b lang) := by
  intro pairs
  induction pairs with
  | nil => intro sk; simp [subsLoopA]
  | cons p rest ih =>
    intro sk
    simp only [subsLoopA, List.foldl_cons] at ih ⊢
    rw [ih]
    rcases hl : lookupA bs p.1 with _ | bv
    · simp [subsLoopAStep, hl, logError, logMessage]
    · by_cases he : p.2 = bv
      · simp [subsLoopAStep, hl, he]
      · simp [subsLoopAStep, hl, he, logError, logMessage]

theorem subsLoopB_msgs (ls : List (String × String)) (a b lang : String) :
    ∀ (pairs : List (String × String)) (sk : Sink),
    (subsLoopB ls a b lang sk pairs).msgs =
      sk.msgs ++ pairs.flatMap (subsLoopBStep ls a b lang) := by
  intro pairs
  induction pairs with
  | nil => intro sk; simp [subsLoopB]
  | cons p rest ih =>
    intro sk
    simp only [subsLoopB, List.foldl_cons] at ih ⊢
    rw [ih]
    rcases hl : lookupA ls p.1 with _ | lv
    · simp [subsLoopBStep, hl, logError, logMessage]
    · by_cases he : lv = p.2
      · simp [subsLoopBStep, hl, he]
      · simp [subsLoopBStep, hl, he, logError, logMessage]

theorem compareKeys_msgs (baseline loc : LocLang) (lang : String) (sk : Sink) :
    (compareKeys baseline loc lang sk).msgs =
      sk.msgs ++ compareDelta baseline loc lang := by
  simp [compareKeys, compareDelta, keysLoop_msgs, subsLoopA_msgs, subsLoopB_msgs,
    emptySink, List.append_assoc]

theorem replay_msgs : ∀ (l : List Msg) (sk : Sink),
    (l.foldl replayMsg sk).msgs = sk.msgs ++ l := by
  intro l
  induction l with
  | nil => intro sk; simp
  | cons m rest ih =>
    intro sk
    simp only [List.foldl_cons]
    rw [ih]
    simp [replayMsg]

theorem replay_anyErrors : ∀ (l : List Msg) (sk : Sink),
    (l.foldl replayMsg sk).anyErrors =
      (sk.anyErrors || l.any (fun m => isErrSev m.sev)) := by
  intro l
  induction l with
  | nil => intro sk; simp
  | cons m rest ih =>
    intro sk
    simp only [List.foldl_cons]
    rw [ih]
    simp [replayMsg, Bool.or_assoc]

theorem any_isErr_false_of_all (l : List Msg)
    (h : l.all (fun m => !isErrSev m.sev) = true) :
    l.any (fun m => isErrSev m.sev) = false := by
  cases ha : l.any (fun m => isErrSev m.sev)
  · rfl
  · exfalso
    obtain ⟨m, hm, hp⟩ := List.any_eq_true.mp ha
    have := (List.all_eq_true.mp h) m hm
    simp [hp] at this

theorem vlfLoop_msgs (baseline : LocLang) :
    ∀ (rest : List (String × List LocFile)) (sk : Sink),
    (vlfLoop baseline rest sk).msgs =
      sk.msgs ++ rest.flatMap (vlfStepDelta baseline) := by
  intro rest
  induction rest with
  | nil => intro sk; simp [vlfLoop]
  | cons p r ih =>
    intro sk
    simp only [vlfLoop, List.foldl_cons] at ih ⊢
    rw [ih]
    rw [getLocKeys_frame, compareKeys_msgs]
    simp [vlfStepDelta, buildDelta, List.append_assoc]

/--
C2, counterexample: in `envC2` no fatal structural condition holds (the
baseline builds two keys without parse errors, languages and base
directories are present) and the only error is a non-structural registry
error (a duplicate locale registration).  The target locale differs from
the baseline, so the comparison — if it ran — would emit diagnostics
(`compareDelta ≠ []`), yet the run's message stream contains no comparison
diagnostic at all: the registry error aborted the run after the baseline
was built, contradicting the claim that every non-structural error is
non-aborting.
-/
theorem c2_counterexample :
    envC2.manifestMsgs.any (fun m => isErrSev m.sev) = true ∧
    (buildOutcome BASE_LOC enFilesC2).1.keys.length = 2 ∧
    (buildOutcome BASE_LOC enFilesC2).1.parsingErrors = false ∧
    compareDelta (buildOutcome BASE_LOC enFilesC2).1
      (buildOutcome "de" deFilesC2).1 "de" ≠ [] ∧
    (validateLocFiles envC2).2.msgs.any (fun m => isCompareDiag m.diag) = false ∧
    (validateLocFiles envC2).1 = true := by
  refine ⟨by decide, by decide, by decide, by decide, by decide, by decide⟩

/--
C2, amended: non-structural errors arising during the per-locale phase are
non-aborting — once the manifest phase and the baseline build complete
without recording any error and no structural condition fires, the engine
builds and compares every remaining locale: the final message stream is
exactly the concatenation of every remaining locale's build and comparison
diagnostics (so an error in one locale never suppresses a later locale's
processing).  Errors recorded before or during the baseline build —
including registry/manifest errors such as a duplicate locale
registration — do abort the run right after the baseline is built, which
is the restriction the counterexample forces on the original claim.
-/
theorem c2_amended (env : Env)
    (hdir : env.manifestDirExists = true)
    (hmode : env.localesOnly = false)
    (hbase : env.locBaseDirsNonempty = true)
    (hmani : env.manifestMsgs.all (fun m => !isErrSev m.sev) = true)
    (hlangs : 1 ≤ env.langs.length)
    (hbl : env.langs.any (fun p => p.1 = BASE_LOC) = true)
    (hkeys : 1 ≤ (buildOutcome BASE_LOC
      ((lookupFiles env.langs BASE_LOC).getD [])).1.keys.length)
    (hpe : (buildOutcome BASE_LOC
      ((lookupFiles env.langs BASE_LOC).getD [])).1.parsingErrors = false)
    (hba : (buildOutcome BASE_LOC
      ((lookupFiles env.langs BASE_LOC).getD [])).2.anyErrors = false) :
    (validateLocFiles env).2.msgs =
      ⟨.normal, "Main", .startingTests⟩ :: env.manifestMsgs ++
      ⟨.normal, "Main", .foundLangs env.langs.length⟩ ::
      buildDelta BASE_LOC ((lookupFiles env.langs BASE_LOC).getD []) ++
      ⟨.normal, "Main", .keysFound (buildOutcome BASE_LOC
        ((lookupFiles env.langs BASE_LOC).getD [])).1.keys.length BASE_LOC⟩ ::
      (env.langs.filter (fun p => !(p.1 = BASE_LOC))).flatMap
        (vlfStepDelta (buildOutcome BASE_LOC
          ((lookupFiles env.langs BASE_LOC).getD [])).1) ++
      [⟨.normal, "Main", .doneMsg⟩] := by
  have hany : env.manifestMsgs.any (fun m => isErrSev m.sev) = false :=
    any_isErr_false_of_all _ hmani
  have hsk2a : (env.manifestMsgs.foldl replayMsg
      (logNormal emptySink none .startingTests)).anyErrors = false := by
    rw [replay_anyErrors, hany]
    simp [logNormal, logMessage, emptySink, isErrSev]
  have hsk2m : (env.manifestMsgs.foldl replayMsg
      (logNormal emptySink none .startingTests)).msgs
      = ⟨.normal, "Main", .startingTests⟩ :: env.manifestMsgs := by
    rw [replay_msgs]
    simp [logNormal, logMessage, emptySink]
  have hstep1 : validateLocFiles env =
      vlfAfterDirs env (env.manifestMsgs.foldl replayMsg
        (logNormal emptySink none .startingTests)) := by
    simp only [validateLocFiles, hdir, hmode, hbase]
    simp
  rw [hstep1]
  simp only [vlfAfterDirs]
  rw [if_neg (by omega : ¬ env.langs.length < 1)]
  simp only [hbl, Bool.not_true]
  rw [getLocKeys_frame]
  simp only [Bool.false_eq_true, if_false, ite_false]
  rw [if_neg (by omega : ¬ (buildOutcome BASE_LOC
      ((lookupFiles env.langs BASE_LOC).getD [])).1.keys.length < 1)]
  have hcond : ((logNormal (env.manifestMsgs.foldl replayMsg
        (logNormal emptySink none .startingTests)) none
        (.foundLangs env.langs.length)).anyErrors ||
      (buildOutcome BASE_LOC ((lookupFiles env.langs BASE_LOC).getD [])).2.anyErrors ||
      (buildOutcome BASE_LOC ((lookupFiles env.langs BASE_LOC).getD [])).1.parsingErrors)
      = false := by
    rw [logNormal_anyErrors, hsk2a, hba, hpe]
    rfl
  rw [hcond]
  simp only [Bool.false_eq_true, if_false, ite_false]
  simp only [logNormal] at hsk2m ⊢
  simp only [logMessage_msgs, vlfLoop_msgs, hsk2m]
  simp [buildDelta, List.append_assoc]

/-- Witness for the amended C2 theorem: a clean manifest and baseline, two
target locales (one of which has a parse error), all built and compared. -/
theorem c2_amended_witness :
    envC2w.manifestDirExists = true ∧
    envC2w.localesOnly = false ∧
    envC2w.manifestMsgs.all (fun m => !isErrSev m.sev) = true ∧
    (validateLocFiles envC2w).2.msgs =
      ⟨.normal, "Main", .startingTests⟩ :: envC2w.manifestMsgs ++
      ⟨.normal, "Main", .foundLangs envC2w.langs.length⟩ ::
      buildDelta BASE_LOC ((lookupFiles envC2w.langs BASE_LOC).getD []) ++
      ⟨.normal, "Main", .keysFound (buildOutcome BASE_LOC
        ((lookupFiles envC2w.langs BASE_LOC).getD [])).1.keys.length BASE_LOC⟩ ::
      (envC2w.langs.filter (fun p => !(p.1 = BASE_LOC))).flatMap
        (vlfStepDelta (buildOutcome BASE_LOC
          ((lookupFiles envC2w.langs BASE_LOC).getD [])).1) ++
      [⟨.normal, "Main", .doneMsg⟩] :=
  ⟨by decide, by decide, by decide,
   c2_amended envC2w (by decide) (by decide) (by decide) (by decide) (by decide)
     (by decide) (by decide) (by decide) (by decide)⟩

/-! ## Counting comparison diagnostics per key -/

theorem countP_flatMap {α β : Type} (p : β → Bool) (f : α → List β) :
    ∀ l : List α,
    List.countP p (l.flatMap f) = (l.map (fun a => List.countP p (f a))).sum := by
  intro l
  induction l with
  | nil => simp
  | cons a t ih => simp [List.countP_append, ih]

theorem sum_zero_of_all_zero (g : String × String → Nat) :
    ∀ (l : List (String × String)), (∀ q ∈ l, g q = 0) → (l.map g).sum = 0 := by
  intro l
  induction l with
  | nil => intro _; simp
  | cons a t ih =>
    intro h
    simp only [List.map_cons, List.sum_cons]
    rw [h a (List.mem_cons_self a t), ih (fun q hq => h q (List.mem_cons_of_mem a hq))]

theorem sum_single_key (k sv : String) (g : String × String → Nat) :
    ∀ (l : List (String × String)), (l.map Prod.fst).Nodup → (k, sv) ∈ l →
    (∀ q ∈ l, ¬ q.1 = k → g q = 0) →
    (l.map g).sum = g (k, sv) := by
  intro l
  induction l with
  | nil => intro _ hm; simp at hm
  | cons a t ih =>
    intro hnd hm hz
    have hnd2 : (a.1 :: t.map Prod.fst).Nodup := by
      rw [← List.map_cons]
      exact hnd
    obtain ⟨hna, hndt⟩ := List.nodup_cons.mp hnd2
    simp only [List.map_cons, List.sum_cons]
    rcases List.mem_cons.mp hm with heq | hmt
    · have ha1 : a.1 = k := by rw [← heq]
      have hzt : ∀ q ∈ t, g q = 0 := by
        intro q hq
        refine hz q (List.mem_cons_of_mem a hq) ?_
        intro hqk
        apply hna
        rw [ha1, ← hqk]
        exact List.mem_map_of_mem Prod.fst hq
      rw [← heq, sum_zero_of_all_zero g t hzt]
      simp
    · have hak : ¬ a.1 = k := by
        intro hik
        apply hna
        have : (k, sv).1 ∈ List.map Prod.fst t := List.mem_map_of_mem Prod.fst hmt
        simpa [hik] using this
      rw [hz a (List.mem_cons_self a t) hak,
        ih hndt hmt (fun q hq hqk => hz q (List.mem_cons_of_mem a hq) hqk)]
      simp

theorem lookupA_mem (k v : String) :
    ∀ m : List (String × String), lookupA m k = some v → (k, v) ∈ m := by
  intro m
  induction m with
  | nil => intro h; simp [lookupA] at h
  | cons a t ih =>
    intro h
    simp only [lookupA] at h
    split at h
    · next heq =>
      rcases a with ⟨k', v'⟩
      simp only at heq
      simp only [Option.some.injEq] at h
      rw [← heq, h] at *
      exact List.mem_cons_self _ _
    · exact List.mem_cons_of_mem a (ih h)

theorem lookupA_none_forall (k : String) :
    ∀ m : List (String × String), lookupA m k = none → ∀ q ∈ m, ¬ q.1 = k := by
  intro m
  induction m with
  | nil => intro _ q hq; simp at hq
  | cons a t ih =>
    intro h q hq
    simp only [lookupA] at h
    split at h
    · exact absurd h (by simp)
    · next hne =>
      rcases List.mem_cons.mp hq with heq | hmt
      · rw [heq]; exact hne
      · exact ih h q hmt

theorem lookupA_of_mem_nodup (k v : String) :
    ∀ m : List (String × String), (m.map Prod.fst).Nodup → (k, v) ∈ m →
    lookupA m k = some v := by
  intro m
  induction m with
  | nil => intro _ hm; simp at hm
  | cons a t ih =>
    intro hnd hm
    have hnd2 : (a.1 :: t.map Prod.fst).Nodup := by
      rw [← List.map_cons]
      exact hnd
    obtain ⟨hna, hndt⟩ := List.nodup_cons.mp hnd2
    rcases List.mem_cons.mp hm with heq | hmt
    · rw [← heq]
      simp [lookupA]
    · have hak : ¬ a.1 = k := by
        intro hik
        apply hna
        have : (k, v).1 ∈ List.map Prod.fst t := List.mem_map_of_mem Prod.fst hmt
        simpa [hik] using this
      simp only [lookupA]
      rw [if_neg hak]
      exact ih hndt hmt

/-- `compareDelta` unfolded into the four loops' message streams. -/
theorem compareDelta_eq (baseline loc : LocLang) (lang : String) :
    compareDelta baseline loc lang =
      loc.keys.flatMap (keysLoopStep baseline.keys loc.name baseline.name lang) ++
      baseline.keys.flatMap (keysLoopStep loc.keys baseline.name loc.name lang) ++
      loc.subs.flatMap (subsLoopAStep baseline.subs loc.name baseline.name lang) ++
      baseline.subs.flatMap (subsLoopBStep loc.subs loc.name baseline.name lang) := by
  simp [compareDelta, compareKeys, keysLoop_msgs, subsLoopA_msgs, subsLoopB_msgs,
    emptySink, List.append_assoc]

theorem countP_keysLoopStep (t : List (String × String))
    (a b lang : String) (q : String × String) (p : Msg → Bool)
    (hp : ∀ x y z, p ⟨.err, lang, .keyMissing x y z⟩ = false) :
    List.countP p (keysLoopStep t a b lang q) = 0 := by
  unfold keysLoopStep
  split
  · simp
  · simp [List.countP_cons, hp]

theorem countP_subsLoopAStep_ne (k : String) (bs : List (String × String))
    (a b lang : String) (q : String × String) (h : ¬ q.1 = k) :
    List.countP (isSubDiagFor k) (subsLoopAStep bs a b lang q) = 0 := by
  unfold subsLoopAStep
  split
  · simp [List.countP_cons, isSubDiagFor, isSigMismatchFor, isSubPresenceFor, h]
  · split
    · simp
    · simp [List.countP_cons, isSubDiagFor, isSigMismatchFor, isSubPresenceFor, h]

theorem countP_subsLoopBStep_ne (k : String) (ls : List (String × String))
    (a b lang : String) (q : String × String) (h : ¬ q.1 = k) :
    List.countP (isSubDiagFor k) (subsLoopBStep ls a b lang q) = 0 := by
  unfold subsLoopBStep
  split
  · simp [List.countP_cons, isSubDiagFor, isSigMismatchFor, isSubPresenceFor, h]
  · split
    · simp
    · simp [List.countP_cons, isSubDiagFor, isSigMismatchFor, isSubPresenceFor, h]

theorem countP_le_subDiag (p : Msg → Bool) (k : String)
    (hp : ∀ m, p m = true → isSubDiagFor k m = true) (l : List Msg) :
    List.countP p l ≤ List.countP (isSubDiagFor k) l :=
  List.countP_mono_left (fun m _ hm => hp m hm)

theorem sig_imp_subDiag (k : String) :
    ∀ m, isSigMismatchFor k m = true → isSubDiagFor k m = true := by
  intro m h
  simp [isSubDiagFor, h]

theorem presence_imp_subDiag (k : String) :
    ∀ m, isSubPresenceFor k m = true → isSubDiagFor k m = true := by
  intro m h
  simp [isSubDiagFor, h]

theorem stepA_at_key (bs : List (String × String)) (a b lang k sv bv : String)
    (hB : lookupA bs k = some bv) (hne : ¬ sv = bv) :
    subsLoopAStep bs a b lang (k, sv) =
      [⟨.err, lang, .subMismatchLocSide k a b sv bv⟩] := by
  unfold subsLoopAStep
  simp [hB, hne]

theorem stepA_at_key_none (bs : List (String × String)) (a b lang k sv : String)
    (hB : lookupA bs k = none) :
    subsLoopAStep bs a b lang (k, sv) =
      [⟨.err, lang, .subMissingInBaseline k a b⟩] := by
  unfold subsLoopAStep
  simp [hB]

theorem stepA_at_key_eq (bs : List (String × String)) (a b lang k sv : String)
    (hB : lookupA bs k = some sv) :
    subsLoopAStep bs a b lang (k, sv) = [] := by
  unfold subsLoopAStep
  simp [hB]

theorem stepB_at_key (ls : List (String × String)) (a b lang k sv bv : String)
    (hL : lookupA ls k = some sv) (hne : ¬ sv = bv) :
    subsLoopBStep ls a b lang (k, bv) =
      [⟨.err, lang, .subMismatchBaseSide k a b sv bv⟩] := by
  unfold subsLoopBStep
  simp [hL, hne]

theorem stepB_at_key_eq (ls : List (String × String)) (a b lang k sv : String)
    (hL : lookupA ls k = some sv) :
    subsLoopBStep ls a b lang (k, sv) = [] := by
  unfold subsLoopBStep
  simp [hL]

theorem stepB_at_key_none (ls : List (String × String)) (a b lang k bv : String)
    (hL : lookupA ls k = none) :
    subsLoopBStep ls a b lang (k, bv) =
      [⟨.err, lang, .subMissingInLoc k b a⟩] := by
  unfold subsLoopBStep
  simp [hL]

/--
C3, counterexample: with signatures recorded on both sides for key
`f.properties/k` and unequal (`"[1, 2]"` vs `"[1]"`), the comparison emits
two signature-mismatch errors for that key, not exactly one; and key
`f.properties/m`, missing entirely from the baseline, receives a
substitution-presence error in addition to the key-presence error.
-/
theorem c3_counterexample :
    lookupA locC3.subs "f.properties/k" = some "[1, 2]" ∧
    lookupA blC3.subs "f.properties/k" = some "[1]" ∧
    ¬ List.countP (isSigMismatchFor "f.properties/k")
        (compareDelta blC3 locC3 "de") = 1 ∧
    lookupA locC3.keys "f.properties/m" = some "%S" ∧
    lookupA blC3.keys "f.properties/m" = none ∧
    ¬ List.countP (isSubDiagFor "f.properties/m")
        (compareDelta blC3 locC3 "de") = 0 := by
  refine ⟨by decide, by decide, by decide, by decide, by decide, by decide⟩

/--
C3, amended: for a key with substitution signatures recorded on both sides,
unequal recorded signatures produce exactly TWO signature-mismatch errors
for that key (one from each direction of the two subs loops); and a key
whose signature is recorded on exactly one side — only in the target
locale, or only in the baseline — produces exactly one
substitution-presence error (emitted by the loop over the side that has
it) and no signature-mismatch error, in addition to the key-presence error
reported separately.
-/
theorem c3_amended (baseline loc : LocLang) (lang k sv bv : String)
    (hndL : (loc.subs.map Prod.fst).Nodup)
    (hndB : (baseline.subs.map Prod.fst).Nodup) :
    (lookupA loc.subs k = some sv → lookupA baseline.subs k = some bv →
      ¬ sv = bv →
      List.countP (isSigMismatchFor k) (compareDelta baseline loc lang) = 2) ∧
    (lookupA loc.subs k = some sv → lookupA baseline.subs k = none →
      List.countP (isSubPresenceFor k) (compareDelta baseline loc lang) = 1 ∧
      List.countP (isSigMismatchFor k) (compareDelta baseline loc lang) = 0) ∧
    (lookupA baseline.subs k = some bv → lookupA loc.subs k = none →
      List.countP (isSubPresenceFor k) (compareDelta baseline loc lang) = 1 ∧
      List.countP (isSigMismatchFor k) (compareDelta baseline loc lang) = 0) := by
  refine ⟨?_, ?_, ?_⟩
  · intro hL hB hne
    have hmemL := lookupA_mem k sv loc.subs hL
    have hmemB := lookupA_mem k bv baseline.subs hB
    rw [compareDelta_eq, List.countP_append, List.countP_append,
      List.countP_append, countP_flatMap, countP_flatMap, countP_flatMap,
      countP_flatMap]
    rw [sum_zero_of_all_zero _ _ (fun q _ =>
      countP_keysLoopStep _ _ _ _ q _ (by intro x y z; simp [isSigMismatchFor]))]
    rw [sum_zero_of_all_zero _ _ (fun q _ =>
      countP_keysLoopStep _ _ _ _ q _ (by intro x y z; simp [isSigMismatchFor]))]
    rw [sum_single_key k sv _ loc.subs hndL hmemL (fun q hq hqk =>
      Nat.le_zero.mp ((countP_le_subDiag _ k (sig_imp_subDiag k) _).trans
        (Nat.le_of_eq (countP_subsLoopAStep_ne k _ _ _ _ q hqk))))]
    rw [sum_single_key k bv _ baseline.subs hndB hmemB (fun q hq hqk =>
      Nat.le_zero.mp ((countP_le_subDiag _ k (sig_imp_subDiag k) _).trans
        (Nat.le_of_eq (countP_subsLoopBStep_ne k _ _ _ _ q hqk))))]
    rw [stepA_at_key _ _ _ _ _ _ _ hB hne,
      stepB_at_key _ _ _ _ _ _ _ hL hne]
    simp [isSigMismatchFor]
  · intro hL hB
    have hmemL := lookupA_mem k sv loc.subs hL
    have hnomem := lookupA_none_forall k baseline.subs hB
    constructor
    all_goals
      rw [compareDelta_eq, List.countP_append, List.countP_append,
        List.countP_append, countP_flatMap, countP_flatMap, countP_flatMap,
        countP_flatMap]
    · rw [sum_zero_of_all_zero _ _ (fun q _ =>
        countP_keysLoopStep _ _ _ _ q _ (by intro x y z; simp [isSubPresenceFor]))]
      rw [sum_zero_of_all_zero _ _ (fun q _ =>
        countP_keysLoopStep _ _ _ _ q _ (by intro x y z; simp [isSubPresenceFor]))]
      rw [sum_single_key k sv _ loc.subs hndL hmemL (fun q hq hqk =>
        Nat.le_zero.mp ((countP_le_subDiag _ k (presence_imp_subDiag k) _).trans
          (Nat.le_of_eq (countP_subsLoopAStep_ne k _ _ _ _ q hqk))))]
      rw [sum_zero_of_all_zero _ _ (fun q hq =>
        Nat.le_zero.mp ((countP_le_subDiag _ k (presence_imp_subDiag k) _).trans
          (Nat.le_of_eq (countP_subsLoopBStep_ne k _ _ _ _ q (hnomem q hq)))))]
      rw [stepA_at_key_none _ _ _ _ _ _ hB]
      simp [isSubPresenceFor]
    · rw [sum_zero_of_all_zero _ _ (fun q _ =>
        countP_keysLoopStep _ _ _ _ q _ (by intro x y z; simp [isSigMismatchFor]))]
      rw [sum_zero_of_all_zero _ _ (fun q _ =>
        countP_keysLoopStep _ _ _ _ q _ (by intro x y z; simp [isSigMismatchFor]))]
      rw [sum_single_key k sv _ loc.subs hndL hmemL (fun q hq hqk =>
        Nat.le_zero.mp ((countP_le_subDiag _ k (sig_imp_subDiag k) _).trans
          (Nat.le_of_eq (countP_subsLoopAStep_ne k _ _ _ _ q hqk))))]
      rw [sum_zero_of_all_zero _ _ (fun q hq =>
        Nat.le_zero.mp ((countP_le_subDiag _ k (sig_imp_subDiag k) _).trans
          (Nat.le_of_eq (countP_subsLoopBStep_ne k _ _ _ _ q (hnomem q hq)))))]
      rw [stepA_at_key_none _ _ _ _ _ _ hB]
      simp [isSigMismatchFor]
  · intro hB hL
    have hmemB := lookupA_mem k bv baseline.subs hB
    have hnomem := lookupA_none_forall k loc.subs hL
    constructor
    all_goals
      rw [compareDelta_eq, List.countP_append, List.countP_append,
        List.countP_append, countP_flatMap, countP_flatMap, countP_flatMap,
        countP_flatMap]
    · rw [sum_zero_of_all_zero _ _ (fun q _ =>
        countP_keysLoopStep _ _ _ _ q _ (by intro x y z; simp [isSubPresenceFor]))]
      rw [sum_zero_of_all_zero _ _ (fun q _ =>
        countP_keysLoopStep _ _ _ _ q _ (by intro x y z; simp [isSubPresenceFor]))]
      rw [sum_zero_of_all_zero _ _ (fun q hq =>
        Nat.le_zero.mp ((countP_le_subDiag _ k (presence_imp_subDiag k) _).trans
          (Nat.le_of_eq (countP_subsLoopAStep_ne k _ _ _ _ q (hnomem q hq)))))]
      rw [sum_single_key k bv _ baseline.subs hndB hmemB (fun q hq hqk =>
        Nat.le_zero.mp ((countP_le_subDiag _ k (presence_imp_subDiag k) _).trans
          (Nat.le_of_eq (countP_subsLoopBStep_ne k _ _ _ _ q hqk))))]
      rw [stepB_at_key_none _ _ _ _ _ _ hL]
      simp [isSubPresenceFor]
    · rw [sum_zero_of_all_zero _ _ (fun q _ =>
        countP_keysLoopStep _ _ _ _ q _ (by intro x y z; simp [isSigMismatchFor]))]
      rw [sum_zero_of_all_zero _ _ (fun q _ =>
        countP_keysLoopStep _ _ _ _ q _ (by intro x y z; simp [isSigMismatchFor]))]
      rw [sum_zero_of_all_zero _ _ (fun q hq =>
        Nat.le_zero.mp ((countP_le_subDiag _ k (sig_imp_subDiag k) _).trans
          (Nat.le_of_eq (countP_subsLoopAStep_ne k _ _ _ _ q (hnomem q hq)))))]
      rw [sum_single_key k bv _ baseline.subs hndB hmemB (fun q hq hqk =>
        Nat.le_zero.mp ((countP_le_subDiag _ k (sig_imp_subDiag k) _).trans
          (Nat.le_of_eq (countP_subsLoopBStep_ne k _ _ _ _ q hqk))))]
      rw [stepB_at_key_none _ _ _ _ _ _ hL]
      simp [isSigMismatchFor]

/-- Witness for the amended C3 theorem at concrete scenarios: a two-sided
mismatch, a locale-only signature, and a baseline-only signature. -/
theorem c3_amended_witness :
    List.countP (isSigMismatchFor "f.properties/k")
      (compareDelta blC3 locC3 "de") = 2 ∧
    (List.countP (isSubPresenceFor "f.properties/m")
      (compareDelta blC3 locC3 "de") = 1 ∧
     List.countP (isSigMismatchFor "f.properties/m")
      (compareDelta blC3 locC3 "de") = 0) ∧
    (List.countP (isSubPresenceFor "f.properties/k")
      (compareDelta blC3 blC4 "de") = 1 ∧
     List.countP (isSigMismatchFor "f.properties/k")
      (compareDelta blC3 blC4 "de") = 0) :=
  ⟨(c3_amended blC3 locC3 "de" "f.properties/k" "[1, 2]" "[1]"
      (by decide) (by decide)).1 (by decide) (by decide) (by decide),
   (c3_amended blC3 locC3 "de" "f.properties/m" "[]" ""
      (by decide) (by decide)).2.1 (by decide) (by decide),
   (c3_amended blC3 blC4 "de" "f.properties/k" "" "[1]"
      (by decide) (by decide)).2.2 (by decide) (by decide)⟩

/--
C4, counterexample: the baseline value of `f.properties/k` contains no
placeholders at all, the target value one anonymous placeholder; the sorted
explicit-index lists are equal (both empty), yet the comparison reports a
substitution-presence error for the key, because a value without `%` never
records a signature at all.
-/
theorem c4_counterexample :
    scanValue "%S".data = .ok [] 1 ∧
    lookupA blC4.keys "f.properties/k" = some "x" ∧
    lookupA locC4.keys "f.properties/k" = some "%S" ∧
    lookupA locC4.subs "f.properties/k" = some "[]" ∧
    lookupA blC4.subs "f.properties/k" = none ∧
    ¬ List.countP (isSubDiagFor "f.properties/k")
        (compareDelta blC4 locC4 "de") = 0 := by
  refine ⟨by decide, by decide, by decide, by decide, by decide, by decide⟩

/--
C4, amended: the stored signature is the sorted explicit-index list alone,
so two successfully scanned values with equal sorted explicit-index lists
record equal signatures regardless of their anonymous-placeholder counts;
and for a key whose (equal) signature is recorded on BOTH sides — which
requires both values to contain at least one `%` — the comparison emits no
substitution-related error.  A side whose value has no placeholders at all
records no signature, and the presence error of the counterexample applies
instead.
-/
theorem c4_amended (baseline loc : LocLang) (lang k s : String)
    (v1 v2 : List Char) (nsl1 nsl2 : List Nat) (a1 a2 : Nat)
    (hndL : (loc.subs.map Prod.fst).Nodup)
    (hndB : (baseline.subs.map Prod.fst).Nodup) :
    (scanValue v1 = .ok nsl1 a1 → scanValue v2 = .ok nsl2 a2 →
      pySort nsl1 = pySort nsl2 →
      pyStrList (pySort nsl1) = pyStrList (pySort nsl2)) ∧
    (lookupA loc.subs k = some s → lookupA baseline.subs k = some s →
      List.countP (isSubDiagFor k) (compareDelta baseline loc lang) = 0) := by
  constructor
  · intro _ _ h
    rw [h]
  · intro hL hB
    rw [compareDelta_eq, List.countP_append, List.countP_append,
      List.countP_append, countP_flatMap, countP_flatMap, countP_flatMap,
      countP_flatMap]
    rw [sum_zero_of_all_zero _ _ (fun q _ =>
      countP_keysLoopStep _ _ _ _ q _ (fun x y z => by
        simp [isSubDiagFor, isSigMismatchFor, isSubPresenceFor]))]
    rw [sum_zero_of_all_zero _ _ (fun q _ =>
      countP_keysLoopStep _ _ _ _ q _ (fun x y z => by
        simp [isSubDiagFor, isSigMismatchFor, isSubPresenceFor]))]
    have hA : ∀ q ∈ loc.subs,
        List.countP (isSubDiagFor k)
          (subsLoopAStep baseline.subs loc.name baseline.name lang q) = 0 := by
      intro q hq
      by_cases hqk : q.1 = k
      · have hlq : lookupA loc.subs q.1 = some q.2 :=
          lookupA_of_mem_nodup q.1 q.2 loc.subs hndL hq
        rw [hqk, hL] at hlq
        have hq2 : q.2 = s := by
          injection hlq.symm
        have hqe : q = (k, s) := by
          rcases q with ⟨q1, q2⟩
          simp only at hqk hq2
          rw [hqk, hq2]
        rw [hqe, stepA_at_key_eq _ _ _ _ _ _ hB]
        simp
      · exact countP_subsLoopAStep_ne k _ _ _ _ q hqk
    have hBz : ∀ q ∈ baseline.subs,
        List.countP (isSubDiagFor k)
          (subsLoopBStep loc.subs loc.name baseline.name lang q) = 0 := by
      intro q hq
      by_cases hqk : q.1 = k
      · have hbq : lookupA baseline.subs q.1 = some q.2 :=
          lookupA_of_mem_nodup q.1 q.2 baseline.subs hndB hq
        rw [hqk, hB] at hbq
        have hq2 : q.2 = s := by
          injection hbq.symm
        have hqe : q = (k, s) := by
          rcases q with ⟨q1, q2⟩
          simp only at hqk hq2
          rw [hqk, hq2]
        rw [hqe, stepB_at_key_eq _ _ _ _ _ _ hL]
        simp
      · exact countP_subsLoopBStep_ne k _ _ _ _ q hqk
    rw [sum_zero_of_all_zero _ _ hA, sum_zero_of_all_zero _ _ hBz]

/-- Witness for the amended C4 theorem: explicit indices `{1, 2}` on both
sides in different orders, one extra anonymous placeholder on one side. -/
theorem c4_amended_witness :
    pyStrList (pySort [1, 2]) = pyStrList (pySort [2, 1]) ∧
    List.countP (isSubDiagFor "f.properties/k")
      (compareDelta blC4w locC4w "de") = 0 :=
  ⟨(c4_amended blC4w locC4w "de" "f.properties/k" "[1, 2]"
      "%1$S%2$S extra %S".data "%2$S and %1$S".data [1, 2] [2, 1] 1 0
      (by decide) (by decide)).1 (by decide) (by decide) (by decide),
   (c4_amended blC4w locC4w "de" "f.properties/k" "[1, 2]"
      "%1$S%2$S extra %S".data "%2$S and %1$S".data [1, 2] [2, 1] 1 0
      (by decide) (by decide)).2 (by decide) (by decide)⟩

/-! ## C5: comment removal -/

theorem length_dropWhile_le (p : Char → Bool) (l : List Char) :
    (l.dropWhile p).length ≤ l.length := by
  induction l with
  | nil => simp
  | cons a t ih =>
    rw [List.dropWhile_cons]
    split
    · exact ih.trans (by simp)
    · simp

theorem dropWhile_append_all (p : Char → Bool) :
    ∀ (l1 l2 : List Char), (∀ c ∈ l1, p c = true) →
    (l1 ++ l2).dropWhile p = l2.dropWhile p := by
  intro l1
  induction l1 with
  | nil => intro l2 _; simp
  | cons a t ih =>
    intro l2 h
    rw [List.cons_append, List.dropWhile_cons, if_pos (h a (List.mem_cons_self a t)),
      ih l2 (fun c hc => h c (List.mem_cons_of_mem a hc))]

theorem dropWhile_cons_neg (p : Char → Bool) (a : Char) (l : List Char)
    (h : p a = false) : (a :: l).dropWhile p = a :: l := by
  simp [List.dropWhile_cons, h]

theorem dropWhile_headNotTerm (rest : List Char) (h : headNotTerm rest = true) :
    rest.dropWhile isTerm = rest := by
  cases rest with
  | nil => rfl
  | cons c t =>
    simp only [headNotTerm, Bool.not_eq_true'] at h
    exact dropWhile_cons_neg isTerm c t h

theorem takeWhile_headNotTerm (rest : List Char) (h : headNotTerm rest = true) :
    rest.takeWhile isTerm = [] := by
  cases rest with
  | nil => rfl
  | cons c t =>
    simp only [headNotTerm, Bool.not_eq_true'] at h
    simp [List.takeWhile_cons, h]

/-- `PROP_COMMENT` matches a `#`/`!` comment line terminated by a newline
(followed by a non-terminator), consuming exactly through the newline, and
the position after the match is a MULTILINE `^` position. -/
theorem matchComment_comment (c0 : Char) (ws body rest : List Char)
    (hc0 : isCommentStart c0 = true)
    (hws : ∀ c ∈ ws, isPyWs c = true)
    (hbody : ∀ c ∈ body, isTerm c = false)
    (hrest : headNotTerm rest = true) :
    matchComment (ws ++ c0 :: body ++ '\n' :: rest) = some (rest, true) := by
  have hc0w : isPyWs c0 = false := by
    have h2 : c0 = '#' ∨ c0 = '!' := by
      simpa [isCommentStart] using hc0
    rcases h2 with h | h <;> rw [h] <;> decide
  have hd1 : (ws ++ c0 :: body ++ '\n' :: rest).dropWhile isPyWs =
      c0 :: (body ++ '\n' :: rest) := by
    simp only [List.append_assoc, List.cons_append]
    rw [dropWhile_append_all isPyWs ws (c0 :: (body ++ '\n' :: rest)) hws]
    exact dropWhile_cons_neg _ _ _ hc0w
  have hd2 : (body ++ '\n' :: rest).dropWhile (fun ch => !(isTerm ch)) =
      '\n' :: rest := by
    rw [dropWhile_append_all _ body ('\n' :: rest) (fun c hc => by
      simp [hbody c hc])]
    exact dropWhile_cons_neg _ '\n' rest (by decide)
  unfold matchComment
  rw [hd1]
  show (if isCommentStart c0 = true then
      match (body ++ '\n' :: rest).dropWhile (fun ch => !(isTerm ch)) with
      | [] => none
      | t :: ts =>
        some (ts.dropWhile isTerm, decide ((ts.takeWhile isTerm).getLastD t = '\n'))
    else none) = some (rest, true)
  rw [if_pos hc0, hd2]
  show some (rest.dropWhile isTerm,
      decide ((rest.takeWhile isTerm).getLastD '\n' = '\n')) = some (rest, true)
  rw [dropWhile_headNotTerm rest hrest, takeWhile_headNotTerm rest hrest]
  simp

theorem matchComment_lt (l r : List Char) (b : Bool)
    (h : matchComment l = some (r, b)) : r.length + 2 ≤ l.length := by
  unfold matchComment at h
  split at h
  · exact absurd h (by simp)
  · rename_i c cs hd
    split at h
    · split at h
      · exact absurd h (by simp)
      · rename_i t ts hd2
        simp only [Option.some.injEq, Prod.mk.injEq] at h
        obtain ⟨hr, _⟩ := h
        have h1 := length_dropWhile_le isPyWs l
        rw [hd] at h1
        have h2 := length_dropWhile_le (fun ch => !(isTerm ch)) cs
        rw [hd2] at h2
        have h3 := length_dropWhile_le isTerm ts
        rw [hr] at h3
        simp only [List.length_cons] at h1 h2
        omega
    · exact absurd h (by simp)

theorem commentScanF_congr : ∀ (f1 f2 : Nat) (b : Bool) (l : List Char),
    l.length < f1 → l.length < f2 → commentScanF f1 b l = commentScanF f2 b l := by
  intro f1
  induction f1 with
  | zero => intro f2 b l h1 _; omega
  | succ f1 ih =>
    intro f2 b l h1 h2
    cases f2 with
    | zero => omega
    | succ f2 =>
      cases l with
      | nil => rfl
      | cons c cs =>
        simp only [commentScanF]
        simp only [List.length_cons] at h1 h2
        cases b with
        | false =>
          simp only [if_false, Bool.false_eq_true, ite_false]
          rw [ih f2 _ cs (by omega) (by omega)]
        | true =>
          simp only [if_true]
          rcases hm : matchComment (c :: cs) with _ | ⟨rest, nl⟩
          · show c :: commentScanF f1 (decide (c = '\n')) cs =
              c :: commentScanF f2 (decide (c = '\n')) cs
            rw [ih f2 _ cs (by omega) (by omega)]
          · have hlt := matchComment_lt (c :: cs) rest nl hm
            simp only [List.length_cons] at hlt
            show commentScanF f1 nl rest = commentScanF f2 nl rest
            exact ih f2 nl rest (by omega) (by omega)

theorem commentScanF_match (f : Nat) (l rest : List Char) (b : Bool)
    (hm : matchComment l = some (rest, b)) (hne : ¬ l = []) :
    commentScanF (f + 1) true l = commentScanF f b rest := by
  cases l with
  | nil => exact absurd rfl hne
  | cons c cs =>
    simp only [commentScanF, if_true, hm]

/--
C5, counterexample: three behaviours of the code refute the claim.  (1) A
full-line comment `"#c"` on the final line, not followed by any line
terminator, is NOT removed (`PROP_COMMENT` requires a trailing
`[\n\r\f]+`) and record matching reports a malformed-line error for it.
(2) The unterminated final comment `"#a=b"` is not removed either, and —
since `'#'` belongs to the `PROP_LINE` key character class — it matches as
a record and yields the key `#a` with value `b`, with no diagnostic at
all.  (3) A newline-terminated comment that follows a `'\r'`-terminated
record (`"k=v\r#c\nx=y"`) is NOT removed, because the MULTILINE `^` of
`PROP_COMMENT` matches only at the start of the data and after a `'\n'`;
it then yields a malformed-line error.
-/
theorem c5_counterexample :
    isCommentStart '#' = true ∧
    removeComments "#c".data = "#c".data ∧
    (parsePropertiesFile "f.properties" "de" "#c" (freshLL "de") emptySink).1.keys
      = [] ∧
    (parsePropertiesFile "f.properties" "de" "#c" (freshLL "de") emptySink).2.msgs
      = [⟨.err, "de", .malformedLine "#c" "f.properties"⟩] ∧
    (parsePropertiesFile "f.properties" "de" "#a=b" (freshLL "de") emptySink).1.keys
      = [("f.properties/#a", "b")] ∧
    (parsePropertiesFile "f.properties" "de" "#a=b" (freshLL "de") emptySink).2.msgs
      = [] ∧
    removeComments "k=v\r#c\nx=y".data = "k=v\r#c\nx=y".data ∧
    (parsePropertiesFile "f.properties" "de" "k=v\r#c\nx=y" (freshLL "de")
        emptySink).1.keys
      = [("f.properties/k", "v"), ("f.properties/x", "y")] ∧
    (parsePropertiesFile "f.properties" "de" "k=v\r#c\nx=y" (freshLL "de")
        emptySink).2.msgs
      = [⟨.err, "de", .malformedLine "#c" "f.properties"⟩] := by
  refine ⟨by decide, by decide, by decide, by decide, by decide, by decide,
    by decide, by decide, by decide⟩

/--
C5, amended: a full-line comment at the START of the data — optional
whitespace, then `#` or `!`, then non-terminator characters — that is
terminated by a `'\n'` whose following character is not another line
terminator, is removed before record matching, and the whole file parses
exactly as the remaining text does, so such a comment yields no key, no
value and no malformed-line error.  The counterexample shows why no
broader statement holds of the code: an unterminated final comment line is
never removed and is matched like ordinary text (a malformed-line error
for `"#c"`, but a stored key for `"#a=b"`), and even a newline-terminated
comment is not removed when it follows a `'\r'`-terminated record, since
`PROP_COMMENT`'s MULTILINE `^` matches only after a `'\n'`.
-/
theorem c5_amended (c0 : Char) (ws body rest : List Char)
    (hc0 : isCommentStart c0 = true)
    (hws : ∀ c ∈ ws, isPyWs c = true)
    (hbody : ∀ c ∈ body, isTerm c = false)
    (hrest : headNotTerm rest = true) :
    removeComments (ws ++ c0 :: body ++ '\n' :: rest) = removeComments rest ∧
    (¬ rest = [] → ∀ (fp lg : String) (ll : LocLang) (sk : Sink),
      parsePropertiesFile fp lg ⟨ws ++ c0 :: body ++ '\n' :: rest⟩ ll sk =
      parsePropertiesFile fp lg ⟨rest⟩ ll sk) := by
  have hm := matchComment_comment c0 ws body rest hc0 hws hbody hrest
  have hne : ¬ (ws ++ c0 :: body ++ '\n' :: rest) = [] := by
    cases ws <;> simp
  have hlen : (ws ++ c0 :: body ++ '\n' :: rest).length =
      ws.length + body.length + rest.length + 2 := by
    simp
    omega
  have h1 : removeComments (ws ++ c0 :: body ++ '\n' :: rest) =
      removeComments rest := by
    unfold removeComments
    rw [commentScanF_match _ _ rest true hm hne]
    exact commentScanF_congr _ _ true rest (by rw [hlen]; omega) (by omega)
  refine ⟨h1, fun hr fp lg ll sk => ?_⟩
  unfold parsePropertiesFile
  have hlen1 : ¬ (⟨ws ++ c0 :: body ++ '\n' :: rest⟩ : String).length < 1 := by
    show ¬ (ws ++ c0 :: body ++ '\n' :: rest).length < 1
    rw [hlen]
    omega
  have hlen2 : ¬ (⟨rest⟩ : String).length < 1 := by
    show ¬ rest.length < 1
    cases rest with
    | nil => exact absurd rfl hr
    | cons a t => simp
  rw [if_neg hlen1, if_neg hlen2]
  show (splitSegs (removeComments (ws ++ c0 :: body ++ '\n' :: rest))).foldl _ _ =
    (splitSegs (removeComments rest)).foldl _ _
  rw [h1]

/-- Witness for the amended C5 theorem: `"#c\nk=v"` parses exactly like
`"k=v"`. -/
theorem c5_amended_witness :
    removeComments ("#c\nk=v".data) = removeComments ("k=v".data) ∧
    parsePropertiesFile "f.properties" "de" "#c\nk=v" (freshLL "de") emptySink =
      parsePropertiesFile "f.properties" "de" "k=v" (freshLL "de") emptySink :=
  ⟨(c5_amended '#' [] "c".data "k=v".data (by decide) (by decide) (by decide)
      (by decide)).1,
   (c5_amended '#' [] "c".data "k=v".data (by decide) (by decide) (by decide)
      (by decide)).2 (by decide) "f.properties" "de" (freshLL "de") emptySink⟩

/-! ## C6/C8: the sorted substitution list -/

theorem pySort_perm (l : List Nat) : (pySort l).Perm l :=
  List.perm_insertionSort _ l

theorem pySort_sorted (l : List Nat) : List.Sorted (· ≤ ·) (pySort l) :=
  List.sorted_insertionSort _ l

theorem maxIdx_cons (a : Nat) (t : List Nat) :
    maxIdx (a :: t) = Nat.max a (maxIdx t) := rfl

theorem le_maxIdx (x : Nat) : ∀ l : List Nat, x ∈ l → x ≤ maxIdx l := by
  intro l
  induction l with
  | nil => intro h; simp at h
  | cons a t ih =>
    intro h
    rw [maxIdx_cons]
    rcases List.mem_cons.mp h with heq | hmt
    · rw [heq]
      exact Nat.le_max_left _ _
    · exact (ih hmt).trans (Nat.le_max_right _ _)

theorem maxIdx_mem : ∀ l : List Nat, maxIdx l = 0 ∨ maxIdx l ∈ l := by
  intro l
  induction l with
  | nil => exact Or.inl rfl
  | cons a t ih =>
    rw [maxIdx_cons]
    rcases Nat.le_total a (maxIdx t) with hle | hle
    · have hmx : a.max (maxIdx t) = maxIdx t := Nat.max_eq_right hle
      rw [hmx]
      rcases ih with h0 | hm
      · exact Or.inl h0
      · exact Or.inr (List.mem_cons_of_mem a hm)
    · have hmx : a.max (maxIdx t) = a := Nat.max_eq_left hle
      rw [hmx]
      exact Or.inr (List.mem_cons_self a t)

theorem getLastD_mem_of_ne_nil : ∀ (l : List Nat) (d : Nat), ¬ l = [] →
    l.getLastD d ∈ l := by
  intro l
  induction l with
  | nil => intro d h; exact absurd rfl h
  | cons a t ih =>
    intro d _
    rw [List.getLastD_cons]
    cases t with
    | nil => simp
    | cons b t2 => exact List.mem_cons_of_mem a (ih a (by simp))

theorem sorted_le_getLastD : ∀ (l : List Nat), List.Sorted (· ≤ ·) l →
    ∀ (d : Nat), ∀ x ∈ l, x ≤ l.getLastD d := by
  intro l
  induction l with
  | nil => intro _ d x hx; simp at hx
  | cons a t ih =>
    intro hs d x hx
    obtain ⟨ha, hst⟩ := List.sorted_cons.mp hs
    rw [List.getLastD_cons]
    cases t with
    | nil =>
      simp only [List.mem_singleton] at hx
      simp [hx]
    | cons b t2 =>
      rcases List.mem_cons.mp hx with heq | hmt
      · rw [heq]
        have hmem := getLastD_mem_of_ne_nil (b :: t2) a (by simp)
        exact ha _ hmem
      · exact ih hst a x hmt

theorem maxIdx_eq_getLastD_pySort (l : List Nat) :
    (pySort l).getLastD 0 = maxIdx l := by
  by_cases hnil : pySort l = []
  · have hl : l = [] := by
      have hp := pySort_perm l
      rw [hnil] at hp
      exact hp.symm.eq_nil
    rw [hnil, hl]
    rfl
  · apply Nat.le_antisymm
    · have hmem : (pySort l).getLastD 0 ∈ pySort l :=
        getLastD_mem_of_ne_nil (pySort l) 0 hnil
      exact le_maxIdx _ l ((pySort_perm l).mem_iff.mp hmem)
    · rcases maxIdx_mem l with h0 | hm
      · rw [h0]
        exact Nat.zero_le _
      · exact sorted_le_getLastD (pySort l) (pySort_sorted l) 0 _
          ((pySort_perm l).mem_iff.mpr hm)

theorem limitCheck_iff (nsl : List Nat) (anon : Nat) :
    limitCheck (pySort nsl) anon = true ↔
      (maxIdx nsl > 10 ∨ anon > 10 ∨ maxIdx nsl + anon > 10) := by
  unfold limitCheck MAX_SUBS
  rw [maxIdx_eq_getLastD_pySort]
  by_cases he : (pySort nsl).isEmpty
  · have hl : nsl = [] := by
      have hp := pySort_perm nsl
      rw [List.isEmpty_iff.mp he] at hp
      exact hp.symm.eq_nil
    subst hl
    simp [maxIdx]
  · simp only [he, Bool.not_false, Bool.true_and, Bool.or_eq_true,
      decide_eq_true_iff]
    omega

theorem lookupA_map_overwrite (k v : String) :
    ∀ m : List (String × String), hasKey m k = true →
    lookupA (m.map (fun p => if p.1 = k then (k, v) else p)) k = some v := by
  intro m
  induction m with
  | nil => intro h; simp [hasKey, lookupA] at h
  | cons a t ih =>
    intro h
    rcases a with ⟨a1, a2⟩
    by_cases hak : a1 = k
    · simp only [List.map_cons, if_pos hak]
      simp [lookupA]
    · simp only [List.map_cons]
      rw [if_neg (by simpa using hak)]
      simp only [lookupA, if_neg hak]
      apply ih
      simp only [hasKey, lookupA, if_neg hak] at h
      exact h

theorem lookupA_append_new (k v : String) :
    ∀ m : List (String × String), hasKey m k = false →
    lookupA (m ++ [(k, v)]) k = some v := by
  intro m
  induction m with
  | nil => intro _; simp [lookupA]
  | cons a t ih =>
    intro h
    rcases a with ⟨a1, a2⟩
    by_cases hak : a1 = k
    · simp [hasKey, lookupA, hak] at h
    · simp only [List.cons_append, lookupA, if_neg hak]
      apply ih
      simp only [hasKey, lookupA, if_neg hak] at h
      exact h

theorem lookupA_dictSet_self (k v : String) (m : List (String × String)) :
    lookupA (dictSet m k v) k = some v := by
  unfold dictSet
  by_cases h : hasKey m k
  · rw [if_pos h]
    exact lookupA_map_overwrite k v m h
  · rw [if_neg h]
    exact lookupA_append_new k v m (by simpa using h)

/--
C6: for a fresh key whose value passes the placeholder scan, the
combined-limit error is emitted exactly when `maxIndex > 10`, or
`anon > 10`, or `maxIndex + anon > 10` (with `maxIndex` the largest
explicit index, `0` if none) — and the error is non-fatal: the key is
stored with its value and its signature (the rendered sorted explicit-index
list, `"[]"` when all placeholders are anonymous) in every case.
-/
theorem c6_combined_limit (fp fn lg : String) (k v : List Char) (ll : LocLang)
    (sk : Sink) (nsl : List Nat) (anon : Nat)
    (hdup : hasKey ll.keys (fn ++ "/" ++ (⟨k⟩ : String)) = false)
    (hpct : v.contains '%' = true)
    (hscan : scanValue v = .ok nsl anon) :
    ((processRecord fp fn lg k v ll sk).2.msgs =
      sk.msgs ++ (if maxIdx nsl > 10 ∨ anon > 10 ∨ maxIdx nsl + anon > 10 then
        [⟨.err, ll.name, .tooManySubs (fn ++ "/" ++ (⟨k⟩ : String)) lg⟩]
      else [])) ∧
    lookupA (processRecord fp fn lg k v ll sk).1.keys
      (fn ++ "/" ++ (⟨k⟩ : String)) = some (⟨v⟩ : String) ∧
    lookupA (processRecord fp fn lg k v ll sk).1.subs
      (fn ++ "/" ++ (⟨k⟩ : String)) = some (pyStrList (pySort nsl)) := by
  have hlen : ¬ v.length < 1 := by
    cases v with
    | nil => simp at hpct
    | cons a t => simp
  have hpr : processRecord fp fn lg k v ll sk =
      (let key := fn ++ "/" ++ (⟨k⟩ : String)
       let ll1 := { ll with keys := dictSet ll.keys key ⟨v⟩ }
       let sorted := pySort nsl
       let r2 := if limitCheck sorted anon then
           llLogError ll1 sk (.tooManySubs key lg)
         else (ll1, sk)
       ({ r2.1 with subs := dictSet r2.1.subs key (pyStrList sorted) }, r2.2)) := by
    unfold processRecord
    rw [if_neg (by simp [hdup]), if_neg hlen, if_pos hpct, hscan]
  rw [hpr]
  by_cases hlim : limitCheck (pySort nsl) anon
  · simp only [if_pos hlim]
    rw [if_pos ((limitCheck_iff nsl anon).mp hlim)]
    refine ⟨?_, ?_, ?_⟩
    · simp [llLogError, logError, logMessage]
    · exact lookupA_dictSet_self _ _ _
    · exact lookupA_dictSet_self _ _ _
  · simp only [if_neg hlim]
    rw [if_neg (fun hc => hlim ((limitCheck_iff nsl anon).mpr hc))]
    refine ⟨by simp, ?_, ?_⟩
    · exact lookupA_dictSet_self _ _ _
    · exact lookupA_dictSet_self _ _ _

/-- Witness for C6: eleven anonymous `%S` placeholders — a combined-limit
error is emitted, and the key is still stored with the empty signature. -/
theorem c6_witness :
    hasKey (freshLL "de").keys
      ("f.properties" ++ "/" ++ (⟨"k".data⟩ : String)) = false ∧
    ("%S%S%S%S%S%S%S%S%S%S%S".data.contains '%') = true ∧
    scanValue "%S%S%S%S%S%S%S%S%S%S%S".data = .ok [] 11 ∧
    (((processRecord "f.properties" "f.properties" "de" "k".data
        "%S%S%S%S%S%S%S%S%S%S%S".data (freshLL "de") emptySink).2.msgs =
      emptySink.msgs ++
        (if maxIdx [] > 10 ∨ 11 > 10 ∨ maxIdx [] + 11 > 10 then
          [⟨.err, (freshLL "de").name,
            .tooManySubs ("f.properties" ++ "/" ++ (⟨"k".data⟩ : String)) "de"⟩]
        else [])) ∧
     lookupA (processRecord "f.properties" "f.properties" "de" "k".data
        "%S%S%S%S%S%S%S%S%S%S%S".data (freshLL "de") emptySink).1.keys
      ("f.properties" ++ "/" ++ (⟨"k".data⟩ : String)) =
        some (⟨"%S%S%S%S%S%S%S%S%S%S%S".data⟩ : String) ∧
     lookupA (processRecord "f.properties" "f.properties" "de" "k".data
        "%S%S%S%S%S%S%S%S%S%S%S".data (freshLL "de") emptySink).1.subs
      ("f.properties" ++ "/" ++ (⟨"k".data⟩ : String)) =
        some (pyStrList (pySort []))) :=
  ⟨by decide, by decide, by decide,
   c6_combined_limit "f.properties" "f.properties" "de" "k".data
     "%S%S%S%S%S%S%S%S%S%S%S".data (freshLL "de") emptySink [] 11
     (by decide) (by decide) (by decide)⟩

/--
C7: within one locale's key set, composite keys keep their first-seen
value: when a property record or a DTD entity produces a composite key that
is already stored, exactly one duplicate-key error is recorded, the new
value is not stored, and both the `keys` and `subs` maps are left entirely
unchanged (so the originally stored value and signature are retained) — in
both the property-record and the entity-extraction paths.
-/
theorem c7_duplicate_first_seen (fp fn lg : String) (k v : List Char)
    (ent : String × String) (ll : LocLang) (sk : Sink) (v0 : String) :
    (lookupA ll.keys (fn ++ "/" ++ (⟨k⟩ : String)) = some v0 →
      (processRecord fp fn lg k v ll sk).1.keys = ll.keys ∧
      (processRecord fp fn lg k v ll sk).1.subs = ll.subs ∧
      (processRecord fp fn lg k v ll sk).2.msgs = sk.msgs ++
        [⟨.err, ll.name, .dupPropKey (fn ++ "/" ++ (⟨k⟩ : String)) fp⟩] ∧
      lookupA (processRecord fp fn lg k v ll sk).1.keys
        (fn ++ "/" ++ (⟨k⟩ : String)) = some v0) ∧
    (lookupA ll.keys (fn ++ "/" ++ ent.1) = some v0 →
      (processEntity fp fn ll sk ent).1.keys = ll.keys ∧
      (processEntity fp fn ll sk ent).1.subs = ll.subs ∧
      (processEntity fp fn ll sk ent).2.msgs = sk.msgs ++
        [⟨.err, ll.name, .dupDtdKey (fn ++ "/" ++ ent.1) fp⟩] ∧
      lookupA (processEntity fp fn ll sk ent).1.keys
        (fn ++ "/" ++ ent.1) = some v0) := by
  constructor
  · intro h
    have hk : hasKey ll.keys (fn ++ "/" ++ (⟨k⟩ : String)) = true := by
      unfold hasKey
      rw [h]
      rfl
    unfold processRecord
    rw [if_pos hk]
    exact ⟨rfl, rfl, by simp [llLogError, logError, logMessage], h⟩
  · intro h
    have hk : hasKey ll.keys (fn ++ "/" ++ ent.1) = true := by
      unfold hasKey
      rw [h]
      rfl
    unfold processEntity
    rw [if_pos hk]
    exact ⟨rfl, rfl, by simp [llLogError, logError, logMessage], h⟩

/-- Witness for C7: a stored key hit by a duplicate record and a duplicate
entity. -/
theorem c7_witness :
    lookupA llC7.keys ("f.properties" ++ "/" ++ (⟨"k".data⟩ : String))
      = some "%S" ∧
    ((processRecord "f.properties" "f.properties" "de" "k".data "x".data
        llC7 emptySink).1.keys = llC7.keys ∧
     (processRecord "f.properties" "f.properties" "de" "k".data "x".data
        llC7 emptySink).1.subs = llC7.subs ∧
     (processRecord "f.properties" "f.properties" "de" "k".data "x".data
        llC7 emptySink).2.msgs = emptySink.msgs ++
       [⟨.err, llC7.name,
         .dupPropKey ("f.properties" ++ "/" ++ (⟨"k".data⟩ : String))
           "f.properties"⟩] ∧
     lookupA (processRecord "f.properties" "f.properties" "de" "k".data
        "x".data llC7 emptySink).1.keys
       ("f.properties" ++ "/" ++ (⟨"k".data⟩ : String)) = some "%S") ∧
    ((processEntity "f.properties" "f.properties" llC7 emptySink
        ("k", "y")).1.keys = llC7.keys ∧
     (processEntity "f.properties" "f.properties" llC7 emptySink
        ("k", "y")).1.subs = llC7.subs ∧
     (processEntity "f.properties" "f.properties" llC7 emptySink
        ("k", "y")).2.msgs = emptySink.msgs ++
       [⟨.err, llC7.name,
         .dupDtdKey ("f.properties" ++ "/" ++ ("k", "y").1) "f.properties"⟩] ∧
     lookupA (processEntity "f.properties" "f.properties" llC7 emptySink
        ("k", "y")).1.keys ("f.properties" ++ "/" ++ ("k", "y").1)
       = some "%S") :=
  ⟨by decide,
   (c7_duplicate_first_seen "f.properties" "f.properties" "de" "k".data
     "x".data ("k", "y") llC7 emptySink "%S").1 (by decide),
   (c7_duplicate_first_seen "f.properties" "f.properties" "de" "k".data
     "x".data ("k", "y") llC7 emptySink "%S").2 (by decide)⟩

/--
C8: the substitution signature of a successfully scanned value is the
rendering of the SORTED list of its explicit placeholder indices, so any
two values whose numbered placeholders are permutations of each other
receive equal signatures (e.g. both orders of `%1$S`/`%2$S` give `[1, 2]`).
-/
theorem c8_signature_order_independent (v1 v2 : List Char)
    (nsl1 nsl2 : List Nat) (a1 a2 : Nat)
    (h1 : scanValue v1 = .ok nsl1 a1) (h2 : scanValue v2 = .ok nsl2 a2)
    (hperm : nsl1.Perm nsl2) :
    pySort nsl1 = pySort nsl2 ∧
    pyStrList (pySort nsl1) = pyStrList (pySort nsl2) := by
  have hs : pySort nsl1 = pySort nsl2 :=
    List.eq_of_perm_of_sorted
      ((pySort_perm nsl1).trans (hperm.trans (pySort_perm nsl2).symm))
      (pySort_sorted nsl1) (pySort_sorted nsl2)
  exact ⟨hs, by rw [hs]⟩

/-- Witness for C8: `"%1$S and %2$S"` and `"%2$S and %1$S"` both produce
the signature `"[1, 2]"`. -/
theorem c8_witness :
    scanValue "%1$S and %2$S".data = .ok [1, 2] 0 ∧
    scanValue "%2$S and %1$S".data = .ok [2, 1] 0 ∧
    pySort [1, 2] = pySort [2, 1] ∧
    pyStrList (pySort [1, 2]) = pyStrList (pySort [2, 1]) ∧
    pyStrList (pySort [1, 2]) = "[1, 2]" :=
  ⟨by decide, by decide,
   (c8_signature_order_independent "%1$S and %2$S".data "%2$S and %1$S".data
     [1, 2] [2, 1] 0 0 (by decide) (by decide) (by decide)).1,
   (c8_signature_order_independent "%1$S and %2$S".data "%2$S and %1$S".data
     [1, 2] [2, 1] 0 0 (by decide) (by decide) (by decide)).2,
   by decide⟩

/--
C9: property-file parsing is a deterministic pure function of the file
content — parsing the same content into two fresh, empty locale states
(with the same locale name and fresh sinks) yields identical key maps,
signature maps and diagnostics.
-/
theorem c9_parse_deterministic (fp lg content : String) (ll1 ll2 : LocLang)
    (sk1 sk2 : Sink)
    (hn : ll1.name = ll2.name)
    (hk1 : ll1.keys = []) (hs1 : ll1.subs = []) (hp1 : ll1.parsingErrors = false)
    (hk2 : ll2.keys = []) (hs2 : ll2.subs = []) (hp2 : ll2.parsingErrors = false)
    (hsk1 : sk1 = emptySink) (hsk2 : sk2 = emptySink) :
    parsePropertiesFile fp lg content ll1 sk1 =
      parsePropertiesFile fp lg content ll2 sk2 := by
  have hll : ll1 = ll2 := by
    rcases ll1 with ⟨n1, k1, s1, p1⟩
    rcases ll2 with ⟨n2, k2, s2, p2⟩
    simp_all
  rw [hll, hsk1, hsk2]

/-- Witness for C9 at a concrete content. -/
theorem c9_witness :
    parsePropertiesFile "f.properties" "de" "a=%1$S\nb=x\n" (freshLL "de")
        emptySink =
      parsePropertiesFile "f.properties" "de" "a=%1$S\nb=x\n" ⟨"de", [], [], false⟩
        emptySink :=
  c9_parse_deterministic "f.properties" "de" "a=%1$S\nb=x\n" (freshLL "de")
    ⟨"de", [], [], false⟩ emptySink emptySink (by decide) (by decide) (by decide)
    (by decide) (by decide) (by decide) (by decide) rfl rfl

theorem findPctAux_ge (l : List Char) : ∀ i j, findPctAux l i = some j → i ≤ j := by
  induction l with
  | nil => intro i j h; simp [findPctAux] at h
  | cons c cs ih =>
    intro i j h
    by_cases hc : c = '%'
    · simp [findPctAux, hc] at h; omega
    · simp only [findPctAux, if_neg hc] at h
      have := ih (i + 1) j h
      omega

theorem findPctAux_bound (l : List Char) :
    ∀ i j, findPctAux l i = some j → j < i + l.length := by
  induction l with
  | nil => intro i j h; simp [findPctAux] at h
  | cons c cs ih =>
    intro i j h
    by_cases hc : c = '%'
    · simp [findPctAux, hc] at h
      simp only [List.length_cons]
      omega
    · simp only [findPctAux, if_neg hc] at h
      have := ih (i + 1) j h
      simp only [List.length_cons]
      omega

theorem findPctAux_char (l : List Char) :
    ∀ i j, findPctAux l i = some j → l[j - i]? = some '%' := by
  induction l with
  | nil => intro i j h; simp [findPctAux] at h
  | cons c cs ih =>
    intro i j h
    by_cases hc : c = '%'
    · simp only [findPctAux, if_pos hc] at h
      have hj := Option.some.inj h
      subst hj
      simp [Nat.sub_self, hc]
    · simp only [findPctAux, if_neg hc] at h
      have hji : i + 1 ≤ j := findPctAux_ge cs (i + 1) j h
      have hx := ih (i + 1) j h
      have hidx : j - i = (j - (i + 1)) + 1 := by omega
      rw [hidx]
      simpa using hx

theorem findPctAux_first (l : List Char) :
    ∀ i j, findPctAux l i = some j →
      ∀ m, i ≤ m → m < j → ¬ l[m - i]? = some '%' := by
  induction l with
  | nil => intro i j h; simp [findPctAux] at h
  | cons c cs ih =>
    intro i j h m him hmj
    by_cases hc : c = '%'
    · simp only [findPctAux, if_pos hc] at h
      have hj := Option.some.inj h
      omega
    · simp only [findPctAux, if_neg hc] at h
      by_cases hmi : m = i
      · subst hmi
        intro hcc
        rw [Nat.sub_self] at hcc
        simp at hcc
        exact hc hcc
      · have him1 : i + 1 ≤ m := by omega
        have hrec := ih (i + 1) j h m him1 hmj
        intro hcc
        apply hrec
        have hidx : m - i = (m - (i + 1)) + 1 := by omega
        rw [hidx] at hcc
        simpa using hcc

theorem findPctAux_none (l : List Char) :
    ∀ i, findPctAux l i = none → ∀ m : Nat, ¬ l[m]? = some '%' := by
  induction l with
  | nil => intro i _ m hcc; simp at hcc
  | cons c cs ih =>
    intro i h m
    by_cases hc : c = '%'
    · simp [findPctAux, hc] at h
    · simp only [findPctAux, if_neg hc] at h
      cases m with
      | zero => intro hcc; simp at hcc; exact hc hcc
      | succ m => intro hcc; exact ih (i + 1) h m (by simpa using hcc)

/-- Full characterisation of a successful `value.find` call. -/
theorem findPct_some (v : List Char) (s p : Nat) (h : findPct v s = some p) :
    s ≤ p ∧ p < v.length ∧ v[p]? = some '%' ∧
      ∀ m, s ≤ m → m < p → ¬ v[m]? = some '%' := by
  unfold findPct at h
  have hge := findPctAux_ge (v.drop s) s p h
  have hbd := findPctAux_bound (v.drop s) s p h
  have hch := findPctAux_char (v.drop s) s p h
  have hfst := findPctAux_first (v.drop s) s p h
  rw [List.getElem?_drop] at hch
  have hsp : s + (p - s) = p := by omega
  rw [hsp] at hch
  have hdl : (v.drop s).length = v.length - s := by simp
  have hlen : p < v.length := by omega
  refine ⟨hge, hlen, hch, ?_⟩
  intro m hsm hmp hcc
  apply hfst m hsm hmp
  rw [List.getElem?_drop]
  have hm : s + (m - s) = m := by omega
  rw [hm]
  exact hcc

theorem findPct_none_spec (v : List Char) (s : Nat) (h : findPct v s = none) :
    ∀ m, s ≤ m → ¬ v[m]? = some '%' := by
  unfold findPct at h
  intro m hsm hcc
  apply findPctAux_none (v.drop s) s h (m - s)
  rw [List.getElem?_drop]
  have hm : s + (m - s) = m := by omega
  rw [hm]
  exact hcc

/-- If some position `q ≥ s` holds a `'%'`, the `find` from `s` returns a
first hit `p` with `s ≤ p ≤ q`. -/
theorem findPct_hit_le (v : List Char) (s q : Nat) (hsq : s ≤ q)
    (hq : v[q]? = some '%') :
    ∃ p, findPct v s = some p ∧ s ≤ p ∧ p ≤ q ∧ v[p]? = some '%' := by
  rcases hf : findPct v s with _ | p
  · exact absurd hq (findPct_none_spec v s hf q hsq)
  · obtain ⟨hge, _, hch, hfst⟩ := findPct_some v s p hf
    refine ⟨p, rfl, hge, ?_, hch⟩
    by_contra hqp
    push_neg at hqp
    exact hfst q hsq hqp hq

/-- A `'%'` standing exactly at the search start is found there. -/
theorem findPct_self (v : List Char) (s : Nat) (h : v[s]? = some '%') :
    findPct v s = some s := by
  have hlt : s < v.length := by
    rcases List.getElem?_eq_some.mp h with ⟨hl, _⟩; exact hl
  unfold findPct
  rw [List.drop_eq_getElem_cons hlt]
  have hvs : v[s] = '%' := by
    have hse := List.getElem?_eq_getElem hlt
    rw [hse] at h
    exact Option.some.inj h
  simp [findPctAux, hvs]

/-- An anonymous placeholder match puts an `'S'` right after the `'%'`. -/
theorem pmatchAt_anon (v : List Char) (pos : Nat)
    (h : pmatchAt v pos = some none) : v[pos + 1]? = some 'S' := by
  simp only [pmatchAt] at h
  by_cases hde : ((v.drop (pos + 1)).takeWhile Char.isDigit).isEmpty
  · rw [if_pos hde] at h
    by_cases hh : (v.drop (pos + 1)).head? = some 'S'
    · have h0 : (v.drop (pos + 1))[0]? = some 'S' := by
        rw [← List.head?_eq_getElem?]
        exact hh
      rw [List.getElem?_drop] at h0
      simpa using h0
    · rw [if_neg hh] at h
      exact absurd h (by simp)
  · rw [if_neg hde] at h
    split at h <;> simp_all

/-- A numbered placeholder match `%<ds>$S` puts the `'S'` at offset
`ds.length + 2` from the `'%'`. -/
theorem pmatchAt_numbered (v : List Char) (pos : Nat) (ds : List Char)
    (h : pmatchAt v pos = some (some ds)) :
    v[pos + ds.length + 2]? = some 'S' := by
  simp only [pmatchAt] at h
  by_cases hde : ((v.drop (pos + 1)).takeWhile Char.isDigit).isEmpty
  · rw [if_pos hde] at h
    split at h <;> simp_all
  · rw [if_neg hde] at h
    split at h
    · rename_i l1 heq
      have hds : ds = (v.drop (pos + 1)).takeWhile Char.isDigit := by
        have h1 := Option.some.inj h
        exact (Option.some.inj h1).symm
      have hS : ((v.drop (pos + 1)).drop
          ((v.drop (pos + 1)).takeWhile Char.isDigit).length)[1]? = some 'S' := by
        rw [heq]
        simp
      rw [List.getElem?_drop, List.getElem?_drop] at hS
      rw [hds]
      have hidx : pos + ((v.drop (pos + 1)).takeWhile Char.isDigit).length + 2 =
          (pos + 1) + (((v.drop (pos + 1)).takeWhile Char.isDigit).length + 1) := by
        omega
      rw [hidx]
      exact hS
    · exact absurd h (by simp)

/--
Core of C10: if the value ends in a maximal run of `'%'` characters of odd
length (run start `rs`), the placeholder loop always reaches a malformed
placeholder and errors out, from any loop entry whose current position
either lies at or before the run start, or lies inside the run at odd
remaining distance from the end.
-/
theorem scanLoopF_error_of_trailing_run (v : List Char) (rs : Nat)
    (hrs : rs < v.length)
    (hrun : ∀ i, rs ≤ i → i < v.length → v[i]? = some '%')
    (hmax : ∀ j, rs = j + 1 → ¬ v[j]? = some '%')
    (hodd : (v.length - rs) % 2 = 1) :
    ∀ fuel pos nsl anon, v.length - pos ≤ fuel → v[pos]? = some '%' →
      (pos ≤ rs ∨ (rs ≤ pos ∧ (v.length - pos) % 2 = 1)) →
      ∃ p, scanLoopF fuel v pos nsl anon = .error p := by
  intro fuel
  induction fuel with
  | zero =>
    intro pos nsl anon hf hp _
    have hlt : pos < v.length := by
      rcases List.getElem?_eq_some.mp hp with ⟨hl, _⟩; exact hl
    omega
  | succ fuel ih =>
    intro pos nsl anon hf hp hinv
    have hposlt : pos < v.length := by
      rcases List.getElem?_eq_some.mp hp with ⟨hl, _⟩; exact hl
    by_cases hge : rs ≤ pos
    · -- inside the trailing run
      have hoddp : (v.length - pos) % 2 = 1 := by
        rcases hinv with hle | ⟨_, ho⟩
        · have hpe : pos = rs := Nat.le_antisymm hle hge
          rw [hpe]; exact hodd
        · exact ho
      by_cases hlast : pos + 1 < v.length
      · -- `%%` escape consumes two `%`s; odd distance is preserved
        have hp1 : v[pos + 1]? = some '%' := hrun (pos + 1) (by omega) hlast
        have hstep : scanStep v pos nsl anon = .next nsl anon (pos + 2) := by
          unfold scanStep
          rw [if_pos hp1]
        have hlt2 : pos + 2 < v.length := by omega
        have hp2 : v[pos + 2]? = some '%' := hrun (pos + 2) (by omega) hlt2
        have hfind : findPct v (pos + 2) = some (pos + 2) := findPct_self v (pos + 2) hp2
        obtain ⟨q, hq⟩ := ih (pos + 2) nsl anon (by omega) hp2
          (Or.inr ⟨by omega, by omega⟩)
        refine ⟨q, ?_⟩
        simp only [scanLoopF, hstep, hfind]
        exact hq
      · -- the final `'%'` of the value: no escape, no match, error
        have h1 : v[pos + 1]? = none := List.getElem?_eq_none (by omega)
        have hc1 : ¬ (v[pos + 1]? = some '%') := by rw [h1]; simp
        have htail : v.drop (pos + 1) = [] := List.drop_eq_nil_of_le (by omega)
        have hpm : pmatchAt v pos = none := by simp [pmatchAt, htail]
        have hstep : scanStep v pos nsl anon = .err := by
          unfold scanStep
          rw [if_neg hc1, hpm]
        refine ⟨pos, ?_⟩
        simp only [scanLoopF, hstep]
    · -- strictly before the run: any successful step stays at or before `rs`
      push_neg at hge
      rcases hsc : scanStep v pos nsl anon with _ | ⟨nsl', anon', s⟩
      · exact ⟨pos, by simp only [scanLoopF, hsc]⟩
      · have hbound : pos + 2 ≤ s ∧ s ≤ rs := by
          unfold scanStep at hsc
          by_cases hp1 : v[pos + 1]? = some '%'
          · rw [if_pos hp1] at hsc
            have hs2 : s = pos + 2 := by cases hsc; rfl
            by_cases heq : pos + 1 = rs
            · exact absurd hp (hmax pos heq.symm)
            · omega
          · rw [if_neg hp1] at hsc
            rcases hpm : pmatchAt v pos with _ | md
            · simp [hpm] at hsc
            · rcases md with _ | ds
              · simp [hpm] at hsc
                obtain ⟨-, -, hs⟩ := hsc
                have hS := pmatchAt_anon v pos hpm
                by_cases hge2 : rs ≤ pos + 1
                · have hlt2 : pos + 1 < v.length := by
                    rcases List.getElem?_eq_some.mp hS with ⟨hl, _⟩; exact hl
                  have hpc := hrun (pos + 1) hge2 hlt2
                  rw [hpc] at hS
                  simp at hS
                · omega
              · simp [hpm] at hsc
                obtain ⟨-, -, hs⟩ := hsc
                have hS := pmatchAt_numbered v pos ds hpm
                by_cases hge2 : rs ≤ pos + ds.length + 2
                · have hlt2 : pos + ds.length + 2 < v.length := by
                    rcases List.getElem?_eq_some.mp hS with ⟨hl, _⟩; exact hl
                  have hpc := hrun (pos + ds.length + 2) hge2 hlt2
                  rw [hpc] at hS
                  simp at hS
                · omega
        have hrsc : v[rs]? = some '%' := hrun rs (Nat.le_refl rs) hrs
        obtain ⟨p', hfind, hsp', hp'rs, hp'c⟩ :=
          findPct_hit_le v s rs hbound.2 hrsc
        obtain ⟨q, hq⟩ := ih p' nsl' anon' (by omega) hp'c (Or.inl hp'rs)
        refine ⟨q, ?_⟩
        simp only [scanLoopF, hsc, hfind]
        exact hq

/-- C10 at the level of `scanValue`: a value ending in a maximal odd run of
`'%'` always fails the placeholder scan. -/
theorem scanValue_error_of_trailing_run (v : List Char) (rs : Nat)
    (hrs : rs < v.length)
    (hrun : ∀ i, rs ≤ i → i < v.length → v[i]? = some '%')
    (hmax : ∀ j, rs = j + 1 → ¬ v[j]? = some '%')
    (hodd : (v.length - rs) % 2 = 1) :
    ∃ p, scanValue v = .error p := by
  have hrsc : v[rs]? = some '%' := hrun rs (Nat.le_refl rs) hrs
  obtain ⟨p0, hfind, _, hp0rs, hp0c⟩ := findPct_hit_le v 0 rs (Nat.zero_le rs) hrsc
  obtain ⟨q, hq⟩ := scanLoopF_error_of_trailing_run v rs hrs hrun hmax hodd
    (v.length + 1) p0 [] 0 (by omega) hp0c (Or.inl hp0rs)
  refine ⟨q, ?_⟩
  unfold scanValue
  rw [hfind]
  exact hq

/--
C10: for every property value ending in a `'%'` that is not the second
character of a `%%` escape — stated as: the value ends in a maximal run of
`'%'` characters of odd length, starting at index `rs` — the placeholder
scan fails at some position, `_parse_properties_file` records exactly one
improper-`%` error for the composite key, and neither the value nor any
signature is stored: `keys` and `subs` are unchanged (the key being new).
-/
theorem c10_trailing_percent_error (filePath fileName lang : String)
    (k v : List Char) (ll : LocLang) (sk : Sink) (rs : Nat)
    (hrs : rs < v.length)
    (hrun : ∀ i, rs ≤ i → i < v.length → v[i]? = some '%')
    (hmax : ∀ j, rs = j + 1 → ¬ v[j]? = some '%')
    (hodd : (v.length - rs) % 2 = 1)
    (hdup : hasKey ll.keys (fileName ++ "/" ++ (⟨k⟩ : String)) = false) :
    ∃ p, scanValue v = .error p ∧
      (processRecord filePath fileName lang k v ll sk).1.keys = ll.keys ∧
      (processRecord filePath fileName lang k v ll sk).1.subs = ll.subs ∧
      (processRecord filePath fileName lang k v ll sk).2 =
        ⟨true, sk.msgs ++ [⟨.err, ll.name,
          .improperPct (fileName ++ "/" ++ (⟨k⟩ : String)) filePath
            (⟨v⟩ : String) p⟩]⟩ := by
  obtain ⟨p, hp⟩ := scanValue_error_of_trailing_run v rs hrs hrun hmax hodd
  have hne : ¬ (v.length < 1) := by omega
  have hmem : '%' ∈ v := List.getElem?_mem (hrun rs (Nat.le_refl rs) hrs)
  have hcon : v.contains '%' = true := List.elem_eq_true_of_mem hmem
  have hpr : processRecord filePath fileName lang k v ll sk =
      llLogError ll sk
        (.improperPct (fileName ++ "/" ++ (⟨k⟩ : String)) filePath ⟨v⟩ p) := by
    simp only [processRecord]
    rw [hdup]
    simp only [Bool.false_eq_true, if_false]
    rw [if_neg hne, if_pos hcon, hp]
  refine ⟨p, hp, ?_, ?_, ?_⟩ <;> rw [hpr]
  · rfl
  · rfl
  · simp [llLogError, logError, logMessage, isErrSev]

/-- Witness for C10: the value `"ab%"` (one trailing unmatched `'%'`)
triggers the improper-`%` error and stores nothing. -/
theorem c10_witness :
    ∃ p, scanValue "ab%".data = .error p ∧
      (processRecord "f.properties" "f.properties" "de" "k".data "ab%".data
        (freshLL "de") emptySink).1.keys = (freshLL "de").keys ∧
      (processRecord "f.properties" "f.properties" "de" "k".data "ab%".data
        (freshLL "de") emptySink).1.subs = (freshLL "de").subs ∧
      (processRecord "f.properties" "f.properties" "de" "k".data "ab%".data
        (freshLL "de") emptySink).2 =
        ⟨true, emptySink.msgs ++ [⟨.err, (freshLL "de").name,
          .improperPct ("f.properties" ++ "/" ++ ("k" : String)) "f.properties"
            ("ab%" : String) p⟩]⟩ :=
  c10_trailing_percent_error "f.properties" "f.properties" "de" "k".data
    "ab%".data (freshLL "de") emptySink 2 (by decide)
    (fun i h1 h2 => by
      have hi : i = 2 := by
        have hlen : ("ab%".data).length = 3 := by decide
        omega
      subst hi
      decide)
    (fun j hj => by
      have hj1 : j = 1 := by omega
      subst hj1
      decide)
    (by decide) (by decide)

end Checkloc
